import Mathlib

/-! # Ordering and descriptive-statistics primitives of `common_compare.hpp`

A shallow embedding of the C++ header `common_compare.hpp` (namespace
`sferes::compare`) together with theorems about it.

Conventions of the embedding.

* A `std::vector<T>` is a `List T`; `v[i]` is the `i`-th element of the list.
* A function that mutates an argument returns the new value of that argument.
* A call that trips `dbg::assertion` / `assert`, reads outside a container or
  divides by a zero count has no value; it yields `Res.fault` with the reason.
* `float` / `double` arithmetic is taken as exact arithmetic over `ℚ`; fitness
  values and objectives are elements of an arbitrary linear order.
* Output to `dbg::out` and `std::cerr` does not influence any returned value and
  is left out.
-/

set_option linter.dupNamespace false

namespace sferes
namespace compare

/-! ## Results of calls -/

/-- Why a call yields no value. -/
inductive Fault where
  /-- a `dbg::assertion` or `assert` predicate was false -/
  | assertion
  /-- an element outside the container was read (undefined behaviour) -/
  | out_of_range
  /-- a quotient or remainder with divisor zero -/
  | division_by_zero
deriving DecidableEq

/-- Outcome of a call: a value, or the reason why there is none. -/
inductive Res (α : Type) where
  | ok (a : α)
  | fault (f : Fault)
deriving DecidableEq

/-- Sequencing of calls: the first fault ends the computation. -/
def Res.bind {α β : Type} (x : Res α) (f : α → Res β) : Res β :=
  match x with
  | .ok a => f a
  | .fault e => .fault e

instance : Monad Res where
  pure := Res.ok
  bind := Res.bind

/-- Element read `container[i]`: a fault outside the container. -/
def Res.read {α : Type} (container : List α) (i : Nat) : Res α :=
  match container[i]? with
  | some x => .ok x
  | none => .fault .out_of_range

/-! ## Candidates -/

/-- Modelled from the spec: the fitness object reached through `i->fit()`, which
the header only uses through its accessors `value()`, `objs()` / `obj(i)`,
`mod()` and `cppn_mod()`. A candidate is represented by its fitness. -/
structure Fit (α : Type) where
  value : α
  objs : List α
  mod : α
  cppn_mod : α
deriving DecidableEq

/-- Accessor `obj(i)` for an index known to be inside `objs()`. -/
def Fit.obj {α : Type} (f : Fit α) (i : Fin f.objs.length) : α := f.objs.get i

/-! ## Sequence algorithms -/

/-- The overload `sort(container)`: the container after `std::sort(begin, end)`.
`std::sort` is library code; it leaves the elements in non-decreasing order of
`operator<`, which for a linear order fixes the result. Insertion sort computes
that result. -/
def sort {α : Type} [LinearOrder α] (container : List α) : List α :=
  container.insertionSort (· ≤ ·)

/-- The scan of `std::min_element` after its first element: `smallest` is
replaced by a later element `x` when `x < smallest`. -/
def min_element_loop {α : Type} [LinearOrder α] (smallest : α) : List α → α
  | [] => smallest
  | x :: rest => min_element_loop (if x < smallest then x else smallest) rest

/-- The scan of `std::max_element` after its first element: `largest` is
replaced by a later element `x` when `largest < x`. -/
def max_element_loop {α : Type} [LinearOrder α] (largest : α) : List α → α
  | [] => largest
  | x :: rest => max_element_loop (if largest < x then x else largest) rest

/-- The overload `min(container)`: `*std::min_element(begin, end)`. On an empty
container `min_element` returns `end()`, whose dereference is outside the
container. -/
def min {α : Type} [LinearOrder α] (container : List α) : Res α :=
  match container with
  | [] => .fault .out_of_range
  | x :: rest => .ok (min_element_loop x rest)

/-- The overload `max(container)`: `*std::max_element(begin, end)`. -/
def max {α : Type} [LinearOrder α] (container : List α) : Res α :=
  match container with
  | [] => .fault .out_of_range
  | x :: rest => .ok (max_element_loop x rest)

/-- The function `average(container)`: `std::accumulate(begin, end, 0) / size()`.
With no elements the quotient `0 / 0` is not a number. -/
def average (container : List ℚ) : Res ℚ :=
  if container.length = 0 then .fault .division_by_zero
  else .ok (container.foldl (· + ·) 0 / (container.length : ℚ))

/-- Conversion of an integer to the 32-bit `int` with the same residue modulo
`2^32`: the value that wraparound arithmetic leaves after an `int` operation that
overflows (the C++ standard leaves signed overflow undefined). -/
def wrap_int (x : Int) : Int := (x + 2 ^ 31) % 2 ^ 32 - 2 ^ 31

/-- The function `mod(a, b)`: `(a%b+b)%b` on `int`, where `%` truncates towards
zero and the sum is an `int`. A zero divisor has no result. -/
def mod (a b : Int) : Res Int :=
  if b = 0 then .fault .division_by_zero
  else .ok (Int.tmod (wrap_int (Int.tmod a b + b)) b)

/-- The function `gatherBest(container, result)`: the vector `result` after the
call. The loop visits the indices `i` in order while
`container[i]->fit().value() == container[0]->fit().value()` and appends
`container[i]` each time; `container` is a `const` reference. -/
def gatherBest {α : Type} [DecidableEq α] (container result : List (Fit α)) : List (Fit α) :=
  ((List.finRange container.length).takeWhile
      (fun i => (container.get i).value = (container.get ⟨0, i.pos⟩).value)).foldl
    (fun result i => result ++ [container.get i]) result

/-! ## Descriptive statistics -/

/-- The record `struct stats`. -/
structure stats where
  min : ℚ
  max : ℚ
  avg : ℚ
  median : ℚ
  first_q : ℚ
  third_q : ℚ
deriving DecidableEq

/-- The function `getPercentile(container, percentile)`. The casts
`(std::size_t)indexl` and `(std::size_t)indexh` have no value for a negative
index. -/
def getPercentile (container : List ℚ) (percentile : ℚ) : Res ℚ :=
  let indexf : ℚ := ((container.length : ℚ) - 1) * percentile
  let indexl : Int := ⌊indexf⌋
  let indexh : Int := ⌈indexf⌉
  let remain : ℚ := indexf - indexl
  if indexl < 0 then .fault .out_of_range
  else do
    let lo ← Res.read container indexl.toNat
    let hi ← Res.read container indexh.toNat
    pure (lo * remain + hi * (1 - remain))

/-- The function `sortAndCalcStats(container)`: the container after the call and
the record returned. -/
def sortAndCalcStats (container : List ℚ) : Res (List ℚ × stats) := do
  let container := sort container
  let min ← Res.read container 0
  let max ← if container.length = 0 then .fault .out_of_range
            else Res.read container (container.length - 1)
  let avg ← average container
  let median ← getPercentile container (1 / 2)
  let first_q ← getPercentile container (1 / 4)
  let third_q ← getPercentile container (3 / 4)
  pure (container, { min := min, max := max, avg := avg, median := median,
                     first_q := first_q, third_q := third_q })

/-! ## `class compare`: the ordering polarity -/

/-- The enum `compare::sort_order`. -/
inductive sort_order where
  | order_ascending
  | order_descending
deriving DecidableEq

/-- Data members of `class compare`. -/
structure compare where
  _smaller : Bool
  _greater : Bool
  _equal : Bool
deriving DecidableEq

/-- Member `compare::greaterThan()`: the object after the call. -/
def compare.greaterThan (_self : compare) : compare :=
  { _smaller := false, _greater := true, _equal := false }

/-- Member `compare::smallerThan()`: the object after the call. -/
def compare.smallerThan (_self : compare) : compare :=
  { _smaller := true, _greater := false, _equal := false }

/-- Member `compare::ascending()`: the object after the call. -/
def compare.ascending (self : compare) : compare := self.smallerThan

/-- Member `compare::descending()`: the object after the call. -/
def compare.descending (self : compare) : compare := self.greaterThan

/-- Constructor `compare(sort_order order)`: member initialisers, then the
switch on `order`. -/
def compare.new (order : sort_order) : compare :=
  let self : compare := { _smaller := true, _greater := false, _equal := false }
  match order with
  | .order_ascending => self.ascending
  | .order_descending => self.descending

/-- Constructor `compare()` with the default argument `order_ascending`. -/
def compare.default : compare := compare.new .order_ascending

/-! ## `struct val_objs` -/

/-- Body of the `for` loop of `val_objs::operator()` at index `i`: `some r` when
the iteration executes `return r`, `none` when it falls through to `++i`. -/
def val_objs.loop_body {α : Type} [LinearOrder α] (i1 i2 : Fit α)
    (h : i1.objs.length = i2.objs.length) (i : Fin i1.objs.length) : Option Bool :=
  if i1.obj i > i2.obj (i.cast h) then some true
  else if i1.obj i < i2.obj (i.cast h) then some false
  else none

/-- The call `val_objs()(i1, i2)`. -/
def val_objs.call {α : Type} [LinearOrder α] (i1 i2 : Fit α) : Res Bool :=
  if h : i1.objs.length = i2.objs.length then
    if i1.objs.length = 0 then .fault .assertion
    else if i2.objs.length = 0 then .fault .assertion
    else if i1.value > i2.value then .ok true
    else if i1.value < i2.value then .ok false
    else .ok (((List.finRange i1.objs.length).findSome? (val_objs.loop_body i1 i2 h)).getD false)
  else .fault .assertion

/-! ## `class pareto_objs` -/

/-- A `pareto_objs` object: its `compare<pareto_objs>` base. -/
structure pareto_objs where
  /-- the base-class subobject -/
  base : compare
deriving DecidableEq

/-- Constructor `pareto_objs()`: runs `compare()`. -/
def pareto_objs.new : pareto_objs := ⟨compare.default⟩

/-- The object after `ascending()` is called on it. -/
def pareto_objs.ascending (self : pareto_objs) : pareto_objs :=
  ⟨self.base.ascending⟩

/-- The object after `descending()` is called on it. -/
def pareto_objs.descending (self : pareto_objs) : pareto_objs :=
  ⟨self.base.descending⟩

/-- The three local flags of `pareto_objs::operator()`. -/
structure pareto_objs.flags where
  i2_dominates_i1 : Bool
  i1_dominates_i2 : Bool
  i1_equal_to_i2 : Bool
deriving DecidableEq

/-- Body of the first `for` loop of `pareto_objs::operator()` at index `i`. -/
def pareto_objs.dominance_body {α : Type} [LinearOrder α] (i1 i2 : Fit α)
    (h : i1.objs.length = i2.objs.length) (st : pareto_objs.flags)
    (i : Fin i1.objs.length) : pareto_objs.flags :=
  if i1.obj i < i2.obj (i.cast h) then
    { st with i1_equal_to_i2 := false, i1_dominates_i2 := false }
  else if i1.obj i > i2.obj (i.cast h) then
    { st with i1_equal_to_i2 := false, i2_dominates_i1 := false }
  else st

/-- The first `for` loop of `pareto_objs::operator()`: the flags after it. -/
def pareto_objs.dominance_loop {α : Type} [LinearOrder α] (i1 i2 : Fit α)
    (h : i1.objs.length = i2.objs.length) : pareto_objs.flags :=
  (List.finRange i1.objs.length).foldl (pareto_objs.dominance_body i1 i2 h)
    { i2_dominates_i1 := true, i1_dominates_i2 := true, i1_equal_to_i2 := true }

/-- Body of the second `for` loop of `pareto_objs::operator()` at index `i`:
`some r` when the iteration executes `return r`, `none` otherwise. -/
def pareto_objs.lexical_body {α : Type} [LinearOrder α] (self : pareto_objs) (i1 i2 : Fit α)
    (h : i1.objs.length = i2.objs.length) (i : Fin i1.objs.length) : Option Bool :=
  if i1.obj i < i2.obj (i.cast h) then some self.base._smaller
  else if i1.obj i > i2.obj (i.cast h) then some self.base._greater
  else none

/-- The second `for` loop of `pareto_objs::operator()`: the value returned from
inside the loop, or `none` when the loop runs to its end. -/
def pareto_objs.lexical_loop {α : Type} [LinearOrder α] (self : pareto_objs) (i1 i2 : Fit α)
    (h : i1.objs.length = i2.objs.length) : Option Bool :=
  (List.finRange i1.objs.length).findSome? (pareto_objs.lexical_body self i1 i2 h)

/-- The call `self(i1, i2)` of `pareto_objs::operator()`. -/
def pareto_objs.call {α : Type} [LinearOrder α] (self : pareto_objs) (i1 i2 : Fit α) :
    Res Bool :=
  if h : i1.objs.length = i2.objs.length then
    if i1.objs.length = 0 then .fault .assertion
    else if i2.objs.length = 0 then .fault .assertion
    else
      let st := pareto_objs.dominance_loop i1 i2 h
      if st.i1_equal_to_i2 then .ok self.base._equal
      else if st.i1_dominates_i2 then .ok self.base._greater
      else if st.i2_dominates_i1 then .ok self.base._smaller
      else .ok ((pareto_objs.lexical_loop self i1 i2 h).getD self.base._equal)
  else .fault .assertion

/-! ## `class performance`, `performance_mod`, `performance_mod_cppnmod` -/

/-- A `performance` object: its `compare<performance>` base. -/
structure performance where
  /-- the base-class subobject -/
  base : compare
deriving DecidableEq

/-- A `performance_mod` object: its `compare<performance_mod>` base. -/
structure performance_mod where
  /-- the base-class subobject -/
  base : compare
deriving DecidableEq

/-- A `performance_mod_cppnmod` object: its `compare<performance_mod>` base. -/
structure performance_mod_cppnmod where
  /-- the base-class subobject -/
  base : compare
deriving DecidableEq

/-- Implicit constructor `performance()`: runs `compare()`. -/
def performance.new : performance := ⟨compare.default⟩

/-- Implicit constructor `performance_mod()`: runs `compare()`. -/
def performance_mod.new : performance_mod := ⟨compare.default⟩

/-- Implicit constructor `performance_mod_cppnmod()`: runs `compare()`. -/
def performance_mod_cppnmod.new : performance_mod_cppnmod := ⟨compare.default⟩

/-- The object after `ascending()` is called on it. -/
def performance.ascending (self : performance) : performance :=
  ⟨self.base.ascending⟩

/-- The object after `descending()` is called on it. -/
def performance.descending (self : performance) : performance :=
  ⟨self.base.descending⟩

/-- The object after `ascending()` is called on it. -/
def performance_mod.ascending (self : performance_mod) : performance_mod :=
  ⟨self.base.ascending⟩

/-- The object after `descending()` is called on it. -/
def performance_mod.descending (self : performance_mod) : performance_mod :=
  ⟨self.base.descending⟩

/-- The object itself after `ascending()` is called on it (the reference the call
returns has the type `performance_mod&` of the template argument). -/
def performance_mod_cppnmod.ascending (self : performance_mod_cppnmod) :
    performance_mod_cppnmod :=
  ⟨self.base.ascending⟩

/-- The object itself after `descending()` is called on it (the reference the
call returns has the type `performance_mod&` of the template argument). -/
def performance_mod_cppnmod.descending (self : performance_mod_cppnmod) :
    performance_mod_cppnmod :=
  ⟨self.base.descending⟩

/-- The call `self(i1, i2)` of `performance::operator()`. -/
def performance.call {α : Type} [LinearOrder α] (self : performance) (i1 i2 : Fit α) : Bool :=
  if i1.value < i2.value then self.base._smaller
  else if i1.value > i2.value then self.base._greater
  else self.base._equal

/-- The call `self(i1, i2)` of `performance_mod::operator()`. -/
def performance_mod.call {α : Type} [LinearOrder α] (self : performance_mod)
    (i1 i2 : Fit α) : Bool :=
  if i1.value < i2.value then self.base._smaller
  else if i1.value > i2.value then self.base._greater
  else if i1.mod < i2.mod then self.base._smaller
  else if i1.mod > i2.mod then self.base._greater
  else self.base._equal

/-- The call `self(i1, i2)` of `performance_mod_cppnmod::operator()`. -/
def performance_mod_cppnmod.call {α : Type} [LinearOrder α] (self : performance_mod_cppnmod)
    (i1 i2 : Fit α) : Bool :=
  if i1.value < i2.value then self.base._smaller
  else if i1.value > i2.value then self.base._greater
  else if i1.mod < i2.mod then self.base._smaller
  else if i1.mod > i2.mod then self.base._greater
  else if i1.cppn_mod < i2.cppn_mod then self.base._smaller
  else if i1.cppn_mod > i2.cppn_mod then self.base._greater
  else self.base._equal

/-! ## Vocabulary of the statements about comparators -/

/-- Every objective of `a` equals the objective of `b` at the same index. -/
def AllEqual {α : Type} (a b : List α) : Prop :=
  ∀ k, ∀ (ha : k < a.length) (hb : k < b.length), a[k] = b[k]

/-- Vector `a` Pareto-dominates `b`: nowhere smaller, somewhere greater. -/
def ParetoDominates {α : Type} [LinearOrder α] (a b : List α) : Prop :=
  (∀ k, ∀ (ha : k < a.length) (hb : k < b.length), b[k] ≤ a[k]) ∧
  ∃ k, ∃ (ha : k < a.length) (hb : k < b.length), b[k] < a[k]

/-- Vectors `a` and `b` are mutually non-dominated: each is strictly better than
the other at some index. -/
def NonDominated {α : Type} [LinearOrder α] (a b : List α) : Prop :=
  (∃ k, ∃ (ha : k < a.length) (hb : k < b.length), a[k] < b[k]) ∧
  ∃ k, ∃ (ha : k < a.length) (hb : k < b.length), b[k] < a[k]

/-- Index `k` is the first index at which `a` and `b` differ, and there `a` holds
the smaller element. -/
def FirstDiffLt {α : Type} [LinearOrder α] (a b : List α) (k : Nat) : Prop :=
  (∀ j, j < k → ∀ (ha : j < a.length) (hb : j < b.length), a[j] = b[j]) ∧
  ∃ (ha : k < a.length) (hb : k < b.length), a[k] < b[k]

/-- Vector `a` is lexicographically smaller than `b`: at the first index where
they differ `a` holds the smaller element. -/
def LexLt {α : Type} [LinearOrder α] (a b : List α) : Prop := ∃ k, FirstDiffLt a b k

/-- Result `r` is the smaller, greater or equal outcome of polarity `c` according
to whether key `k1` is less than, greater than or equal to key `k2`. -/
def PolarityOutcome {κ : Type} [LT κ] (c : compare) (k1 k2 : κ) (r : Bool) : Prop :=
  (k1 < k2 → r = c._smaller) ∧ (k2 < k1 → r = c._greater) ∧ (k1 = k2 → r = c._equal)

/-! ### The vocabulary is decidable -/

instance {α : Type} [DecidableEq α] (a b : List α) : Decidable (AllEqual a b) :=
  decidable_of_iff (∀ k : Fin a.length, ∀ hb : k.val < b.length, a[k.val] = b[k.val])
    ⟨fun h k ha hb => h ⟨k, ha⟩ hb, fun h k hb => h k.val k.isLt hb⟩

instance {α : Type} [LinearOrder α] (a b : List α) : Decidable (ParetoDominates a b) :=
  decidable_of_iff
    ((∀ k : Fin a.length, ∀ hb : k.val < b.length, b[k.val] ≤ a[k.val]) ∧
      ∃ k : Fin a.length, ∃ hb : k.val < b.length, b[k.val] < a[k.val])
    ⟨fun ⟨h1, ⟨k, hb, h2⟩⟩ => ⟨fun k ha hb => h1 ⟨k, ha⟩ hb, ⟨k.val, k.isLt, hb, h2⟩⟩,
     fun ⟨h1, ⟨k, ha, hb, h2⟩⟩ => ⟨fun k hb => h1 k.val k.isLt hb, ⟨⟨k, ha⟩, hb, h2⟩⟩⟩

instance {α : Type} [LinearOrder α] (a b : List α) : Decidable (NonDominated a b) :=
  decidable_of_iff
    ((∃ k : Fin a.length, ∃ hb : k.val < b.length, a[k.val] < b[k.val]) ∧
      ∃ k : Fin a.length, ∃ hb : k.val < b.length, b[k.val] < a[k.val])
    ⟨fun ⟨⟨k, hb, h1⟩, ⟨m, hm, h2⟩⟩ => ⟨⟨k.val, k.isLt, hb, h1⟩, ⟨m.val, m.isLt, hm, h2⟩⟩,
     fun ⟨⟨k, ha, hb, h1⟩, ⟨m, hma, hm, h2⟩⟩ => ⟨⟨⟨k, ha⟩, hb, h1⟩, ⟨⟨m, hma⟩, hm, h2⟩⟩⟩

instance {α : Type} [LinearOrder α] (a b : List α) (k : Nat) : Decidable (FirstDiffLt a b k) :=
  decidable_of_iff
    ((∀ j : Fin k, ∀ (ha : j.val < a.length) (hb : j.val < b.length), a[j.val] = b[j.val]) ∧
      ∃ (ha : k < a.length) (hb : k < b.length), a[k] < b[k])
    ⟨fun ⟨h1, h2⟩ => ⟨fun j hj ha hb => h1 ⟨j, hj⟩ ha hb, h2⟩,
     fun ⟨h1, h2⟩ => ⟨fun j ha hb => h1 j.val j.isLt ha hb, h2⟩⟩

instance {α : Type} [LinearOrder α] (a b : List α) : Decidable (LexLt a b) :=
  decidable_of_iff (∃ k : Fin a.length, FirstDiffLt a b k.val)
    ⟨fun ⟨k, h⟩ => ⟨k.val, h⟩, fun ⟨k, h⟩ => ⟨⟨k, h.2.1⟩, h⟩⟩

instance {κ : Type} [LT κ] [DecidableEq κ] [DecidableRel (fun x y : κ => x < y)] (c : compare)
    (k1 k2 : κ) (r : Bool) : Decidable (PolarityOutcome c k1 k2 r) :=
  inferInstanceAs (Decidable
    ((k1 < k2 → r = c._smaller) ∧ (k2 < k1 → r = c._greater) ∧ (k1 = k2 → r = c._equal)))

/-! ## Further sequence algorithms -/

/-- The function `l1diff(container1, container2)`: the assertion on the sizes,
the loop accumulating `std::fabs(*it1 - *it2)` over the positions of
`container1`, and the quotient by `container1.size()`. -/
def l1diff (container1 container2 : List ℚ) : Res ℚ :=
  if h : container1.length = container2.length then
    let result : ℚ := (List.finRange container1.length).foldl
      (fun result i => result + |container1.get i - container2.get (i.cast h)|) 0
    if container1.length = 0 then .fault .division_by_zero
    else .ok (result / (container1.length : ℚ))
  else .fault .assertion

/-- The function template `multiply(x, y)`. -/
def multiply {α : Type} [Mul α] (x y : α) : α := x * y

/-- The function template `mult(container)`:
`std::accumulate(begin, end, 1.0, multiply<ElementType>)`. -/
def mult {α : Type} [Mul α] [One α] (container : List α) : α :=
  container.foldl multiply 1

/-! ## Sequences of configuration calls -/

/-- The four public configuration members of `class compare`. -/
inductive compare.method where
  | ascending
  | descending
  | greaterThan
  | smallerThan
deriving DecidableEq

/-- The object after one configuration call. -/
def compare.invoke (self : compare) : compare.method → compare
  | .ascending => self.ascending
  | .descending => self.descending
  | .greaterThan => self.greaterThan
  | .smallerThan => self.smallerThan

/-- The object after a sequence of configuration calls, first call first. -/
def compare.run (self : compare) (calls : List compare.method) : compare :=
  calls.foldl compare.invoke self

/-! ## References returned by `ascending()` and `descending()` -/

/-- Modelled from the spec: `stc::exact(this)` of `sferes/stc.hpp` (not part of
the header), the static cast of `this` to the template argument `Exact`. For
`performance_mod_cppnmod` the base is `compare<performance_mod>`, so the cast
presents the object, with its three flags, as a `performance_mod`. -/
def performance_mod_cppnmod.exact (self : performance_mod_cppnmod) : performance_mod :=
  ⟨self.base⟩

/-- The reference returned by `ascending()` called on a
`performance_mod_cppnmod`: `smallerThan()` runs, then `*stc::exact(this)`. -/
def performance_mod_cppnmod.ascending_returned (self : performance_mod_cppnmod) :
    performance_mod :=
  (self.ascending).exact

/-- The reference returned by `descending()` called on a
`performance_mod_cppnmod`: `greaterThan()` runs, then `*stc::exact(this)`. -/
def performance_mod_cppnmod.descending_returned (self : performance_mod_cppnmod) :
    performance_mod :=
  (self.descending).exact

/-! ## Plain lexicographic comparison -/

/-- The plain lexicographic comparison of two objective vectors under polarity
`c`, written from its description: the smaller or greater outcome at the first
index where the vectors differ, the equal outcome if there is none. -/
def plain_lexicographic {α : Type} [LinearOrder α] (c : compare) : List α → List α → Bool
  | x :: a, y :: b =>
    if x < y then c._smaller
    else if y < x then c._greater
    else plain_lexicographic c a b
  | _, _ => c._equal

/-! # Theorems -/

/-! ## Index loops over two vectors of equal length -/

section loops

variable {α : Type}

theorem finRange_map_pair (a b : List α) (h : a.length = b.length) :
    (List.finRange a.length).map (fun i => (a.get i, b.get (i.cast h))) = a.zip b := by
  apply List.ext_get
  · simp [h]
  · intro n h1 h2
    simp

theorem foldl_finRange_eq_zip {σ : Type} (a b : List α) (h : a.length = b.length)
    (f : σ → α → α → σ) (init : σ) :
    (List.finRange a.length).foldl (fun st i => f st (a.get i) (b.get (i.cast h))) init
      = (a.zip b).foldl (fun st p => f st p.1 p.2) init := by
  rw [← finRange_map_pair a b h, List.foldl_map]

theorem findSome_finRange_eq_zip {β : Type} (a b : List α) (h : a.length = b.length)
    (f : α → α → Option β) :
    (List.finRange a.length).findSome? (fun i => f (a.get i) (b.get (i.cast h)))
      = (a.zip b).findSome? (fun p => f p.1 p.2) := by
  rw [← finRange_map_pair a b h, List.findSome?_map]
  rfl

theorem forall_mem_zip_iff (P : α → α → Prop) (a b : List α) :
    (∀ p ∈ a.zip b, P p.1 p.2) ↔
      ∀ k, ∀ (ha : k < a.length) (hb : k < b.length), P a[k] b[k] := by
  constructor
  · intro hp k ha hb
    have hk : k < (a.zip b).length := by simp [ha, hb]
    have := hp ((a.zip b)[k]) (List.getElem_mem hk)
    simpa using this
  · intro hp p hmem
    obtain ⟨k, hk, rfl⟩ := List.getElem_of_mem hmem
    have hk2 : k < a.length ∧ k < b.length := by simpa using hk
    simpa using hp k hk2.1 hk2.2

theorem AllEqual_cons_iff (x y : α) (a b : List α) :
    AllEqual (x :: a) (y :: b) ↔ x = y ∧ AllEqual a b := by
  constructor
  · intro h
    refine ⟨by simpa using h 0 (by simp) (by simp), ?_⟩
    intro k ha hb
    simpa using h (k + 1) (by simpa using ha) (by simpa using hb)
  · rintro ⟨hxy, h⟩ k ha hb
    cases k with
    | zero => simpa using hxy
    | succ k => simpa using h k (by simpa using ha) (by simpa using hb)

theorem AllEqual_symm {a b : List α} (h : AllEqual a b) : AllEqual b a :=
  fun k hb ha => (h k ha hb).symm

theorem AllEqual_trans {a b d : List α} (hab : a.length = b.length)
    (h1 : AllEqual a b) (h2 : AllEqual b d) : AllEqual a d :=
  fun k ha hd => (h1 k ha (hab ▸ ha)).trans (h2 k (hab ▸ ha) hd)

end loops

/-! ## The two loops of `pareto_objs::operator()` -/

section pareto

variable {α : Type} [LinearOrder α]

theorem pareto_objs_dominance_loop_eq_zip (i1 i2 : Fit α)
    (h : i1.objs.length = i2.objs.length) :
    pareto_objs.dominance_loop i1 i2 h =
      (i1.objs.zip i2.objs).foldl
        (fun (st : pareto_objs.flags) p =>
          if p.1 < p.2 then { st with i1_equal_to_i2 := false, i1_dominates_i2 := false }
          else if p.1 > p.2 then { st with i1_equal_to_i2 := false, i2_dominates_i1 := false }
          else st)
        { i2_dominates_i1 := true, i1_dominates_i2 := true, i1_equal_to_i2 := true } :=
  foldl_finRange_eq_zip i1.objs i2.objs h
    (fun (st : pareto_objs.flags) x y =>
      if x < y then { st with i1_equal_to_i2 := false, i1_dominates_i2 := false }
      else if x > y then { st with i1_equal_to_i2 := false, i2_dominates_i1 := false }
      else st) _

theorem pareto_objs_dominance_fold (l : List (α × α)) (st : pareto_objs.flags) :
    ((l.foldl
        (fun (st : pareto_objs.flags) p =>
          if p.1 < p.2 then { st with i1_equal_to_i2 := false, i1_dominates_i2 := false }
          else if p.1 > p.2 then { st with i1_equal_to_i2 := false, i2_dominates_i1 := false }
          else st) st).i1_equal_to_i2 = true ↔
        st.i1_equal_to_i2 = true ∧ ∀ p ∈ l, p.1 = p.2) ∧
    ((l.foldl
        (fun (st : pareto_objs.flags) p =>
          if p.1 < p.2 then { st with i1_equal_to_i2 := false, i1_dominates_i2 := false }
          else if p.1 > p.2 then { st with i1_equal_to_i2 := false, i2_dominates_i1 := false }
          else st) st).i1_dominates_i2 = true ↔
        st.i1_dominates_i2 = true ∧ ∀ p ∈ l, p.2 ≤ p.1) ∧
    ((l.foldl
        (fun (st : pareto_objs.flags) p =>
          if p.1 < p.2 then { st with i1_equal_to_i2 := false, i1_dominates_i2 := false }
          else if p.1 > p.2 then { st with i1_equal_to_i2 := false, i2_dominates_i1 := false }
          else st) st).i2_dominates_i1 = true ↔
        st.i2_dominates_i1 = true ∧ ∀ p ∈ l, p.1 ≤ p.2) := by
  induction l generalizing st with
  | nil => simp
  | cons p l ih =>
    rcases lt_trichotomy p.1 p.2 with hlt | heq | hgt
    · have h1 : ¬ p.1 = p.2 := ne_of_lt hlt
      have h2 : ¬ p.2 ≤ p.1 := not_le.mpr hlt
      have h3 : p.1 ≤ p.2 := le_of_lt hlt
      simp only [List.foldl_cons, if_pos hlt, ih, List.forall_mem_cons]
      simp [h1, h2, h3]
    · have h1 : ¬ p.1 < p.2 := by rw [heq]; exact lt_irrefl _
      have h2 : ¬ p.1 > p.2 := by rw [heq]; exact lt_irrefl _
      have h3 : p.2 ≤ p.1 := le_of_eq heq.symm
      have h4 : p.1 ≤ p.2 := le_of_eq heq
      simp only [List.foldl_cons, if_neg h1, if_neg h2, ih, List.forall_mem_cons]
      simp [heq, h3]
    · have h0 : ¬ p.1 < p.2 := not_lt.mpr (le_of_lt hgt)
      have h1 : ¬ p.1 = p.2 := ne_of_gt hgt
      have h2 : ¬ p.1 ≤ p.2 := not_le.mpr hgt
      have h3 : p.2 ≤ p.1 := le_of_lt hgt
      simp only [List.foldl_cons, if_neg h0, if_pos hgt, ih, List.forall_mem_cons]
      simp [h1, h2, h3]

/-- The flags left by the first loop, read as statements about the objectives. -/
theorem pareto_objs_dominance_loop_spec (i1 i2 : Fit α)
    (h : i1.objs.length = i2.objs.length) :
    ((pareto_objs.dominance_loop i1 i2 h).i1_equal_to_i2 = true ↔
        AllEqual i1.objs i2.objs) ∧
    ((pareto_objs.dominance_loop i1 i2 h).i1_dominates_i2 = true ↔
        ∀ k, ∀ (ha : k < i1.objs.length) (hb : k < i2.objs.length),
          i2.objs[k] ≤ i1.objs[k]) ∧
    ((pareto_objs.dominance_loop i1 i2 h).i2_dominates_i1 = true ↔
        ∀ k, ∀ (ha : k < i1.objs.length) (hb : k < i2.objs.length),
          i1.objs[k] ≤ i2.objs[k]) := by
  rw [pareto_objs_dominance_loop_eq_zip]
  obtain ⟨h1, h2, h3⟩ := pareto_objs_dominance_fold (i1.objs.zip i2.objs)
    { i2_dominates_i1 := true, i1_dominates_i2 := true, i1_equal_to_i2 := true }
  refine ⟨?_, ?_, ?_⟩
  · rw [h1, forall_mem_zip_iff (fun x y => x = y)]
    simp [AllEqual]
  · rw [h2, forall_mem_zip_iff (fun x y => y ≤ x)]
    simp
  · rw [h3, forall_mem_zip_iff (fun x y => x ≤ y)]
    simp

end pareto

/-! ## First differing index -/

section lexical

variable {α : Type} [LinearOrder α]

theorem FirstDiffLt_cons_zero_iff (x y : α) (a b : List α) :
    FirstDiffLt (x :: a) (y :: b) 0 ↔ x < y := by
  simp [FirstDiffLt]

theorem FirstDiffLt_cons_succ_iff (x y : α) (a b : List α) (k : Nat) :
    FirstDiffLt (x :: a) (y :: b) (k + 1) ↔ x = y ∧ FirstDiffLt a b k := by
  constructor
  · rintro ⟨h1, ha, hb, hlt⟩
    refine ⟨by simpa using h1 0 (Nat.succ_pos k) (by simp) (by simp), ?_, ?_⟩
    · intro j hj ha2 hb2
      simpa using h1 (j + 1) (by omega) (by simpa using ha2) (by simpa using hb2)
    · exact ⟨by simpa using ha, by simpa using hb, by simpa using hlt⟩
  · rintro ⟨hxy, h1, ha, hb, hlt⟩
    refine ⟨?_, by simpa using ha, by simpa using hb, by simpa using hlt⟩
    intro j hj ha2 hb2
    cases j with
    | zero => simpa using hxy
    | succ j => simpa using h1 j (by omega) (by simpa using ha2) (by simpa using hb2)

theorem FirstDiffLt_not_nil_left (b : List α) (k : Nat) : ¬ FirstDiffLt ([] : List α) b k := by
  rintro ⟨_, ha, _⟩
  simp at ha

theorem FirstDiffLt_not_nil_right (a : List α) (k : Nat) : ¬ FirstDiffLt a ([] : List α) k := by
  rintro ⟨_, _, hb, _⟩
  simp at hb

/-- A loop that returns `s` or `g` at the first index where the vectors differ. -/
theorem findSome_zip_of_firstDiffLt {β : Type} (s g : β) (a b : List α) (k : Nat)
    (h : FirstDiffLt a b k) :
    (a.zip b).findSome?
      (fun p => if p.1 < p.2 then some s else if p.1 > p.2 then some g else none) = some s := by
  induction a generalizing b k with
  | nil => exact absurd h (FirstDiffLt_not_nil_left b k)
  | cons x a ih =>
    cases b with
    | nil => exact absurd h (FirstDiffLt_not_nil_right _ k)
    | cons y b =>
      cases k with
      | zero =>
        have hxy : x < y := (FirstDiffLt_cons_zero_iff x y a b).mp h
        simp [hxy]
      | succ k =>
        obtain ⟨hxy, hk⟩ := (FirstDiffLt_cons_succ_iff x y a b k).mp h
        subst hxy
        simpa using ih b k hk

theorem findSome_zip_of_firstDiffGt {β : Type} (s g : β) (a b : List α) (k : Nat)
    (h : FirstDiffLt b a k) :
    (a.zip b).findSome?
      (fun p => if p.1 < p.2 then some s else if p.1 > p.2 then some g else none) = some g := by
  induction a generalizing b k with
  | nil => exact absurd h (FirstDiffLt_not_nil_right b k)
  | cons x a ih =>
    cases b with
    | nil => exact absurd h (FirstDiffLt_not_nil_left _ k)
    | cons y b =>
      cases k with
      | zero =>
        have hxy : y < x := (FirstDiffLt_cons_zero_iff y x b a).mp h
        simp [hxy, not_lt.mpr (le_of_lt hxy)]
      | succ k =>
        obtain ⟨hxy, hk⟩ := (FirstDiffLt_cons_succ_iff y x b a k).mp h
        subst hxy
        simpa using ih b k hk

theorem findSome_zip_of_allEqual {β : Type} (s g : β) (a b : List α) (h : AllEqual a b) :
    (a.zip b).findSome?
      (fun p => if p.1 < p.2 then some s else if p.1 > p.2 then some g else none) = none := by
  induction a generalizing b with
  | nil => simp
  | cons x a ih =>
    cases b with
    | nil => simp
    | cons y b =>
      obtain ⟨hxy, hab⟩ := (AllEqual_cons_iff x y a b).mp h
      subst hxy
      simpa using ih b hab

/-- Two vectors agree everywhere, or one of them is smaller at the first
difference. -/
theorem lex_trichotomy (a b : List α) : AllEqual a b ∨ LexLt a b ∨ LexLt b a := by
  induction a generalizing b with
  | nil => left; intro k ha; simp at ha
  | cons x a ih =>
    cases b with
    | nil => left; intro k _ hb; simp at hb
    | cons y b =>
      rcases lt_trichotomy x y with hlt | heq | hgt
      · exact Or.inr (Or.inl ⟨0, (FirstDiffLt_cons_zero_iff x y a b).mpr hlt⟩)
      · rcases ih b with h | ⟨k, h⟩ | ⟨k, h⟩
        · exact Or.inl ((AllEqual_cons_iff x y a b).mpr ⟨heq, h⟩)
        · exact Or.inr (Or.inl ⟨k + 1, (FirstDiffLt_cons_succ_iff x y a b k).mpr ⟨heq, h⟩⟩)
        · exact Or.inr (Or.inr
            ⟨k + 1, (FirstDiffLt_cons_succ_iff y x b a k).mpr ⟨heq.symm, h⟩⟩)
      · exact Or.inr (Or.inr ⟨0, (FirstDiffLt_cons_zero_iff y x b a).mpr hgt⟩)

theorem FirstDiffLt_not_allEqual {a b : List α} {k : Nat} (h : FirstDiffLt a b k) :
    ¬ AllEqual a b := by
  obtain ⟨_, ha, hb, hlt⟩ := h
  intro heq
  exact absurd (heq k ha hb) (ne_of_lt hlt)

theorem FirstDiffLt_not_allEqual_symm {a b : List α} {k : Nat} (h : FirstDiffLt a b k) :
    ¬ AllEqual b a := by
  obtain ⟨_, ha, hb, hlt⟩ := h
  intro heq
  exact absurd (heq k hb ha) (ne_of_gt hlt)

theorem FirstDiffLt_asymm {a b : List α} {k m : Nat} (h : FirstDiffLt a b k)
    (h2 : FirstDiffLt b a m) : False := by
  obtain ⟨h1, ha, hb, hlt⟩ := h
  obtain ⟨h3, ha2, hb2, hlt2⟩ := h2
  rcases Nat.lt_trichotomy k m with hkm | hkm | hkm
  · exact absurd (h3 k hkm hb ha) (ne_of_gt hlt)
  · subst hkm
    exact lt_asymm hlt hlt2
  · exact absurd (h1 m hkm hb2 ha2) (ne_of_gt hlt2)

theorem pareto_objs_lexical_loop_eq_zip (self : pareto_objs) (i1 i2 : Fit α)
    (h : i1.objs.length = i2.objs.length) :
    pareto_objs.lexical_loop self i1 i2 h =
      (i1.objs.zip i2.objs).findSome?
        (fun p => if p.1 < p.2 then some self.base._smaller
          else if p.1 > p.2 then some self.base._greater else none) :=
  findSome_finRange_eq_zip i1.objs i2.objs h
    (fun x y => if x < y then some self.base._smaller
      else if x > y then some self.base._greater else none)

end lexical

/-! ## Claims about `pareto_objs` -/

section pareto_claims

variable {α : Type} [LinearOrder α]

/-- The four relations between two objective vectors cover every pair and exclude
one another. -/
theorem pareto_cases_exactly_one (a b : List α) :
    (AllEqual a b ∨ ParetoDominates a b ∨ ParetoDominates b a ∨ NonDominated a b) ∧
    ¬ (AllEqual a b ∧ ParetoDominates a b) ∧
    ¬ (AllEqual a b ∧ ParetoDominates b a) ∧
    ¬ (AllEqual a b ∧ NonDominated a b) ∧
    ¬ (ParetoDominates a b ∧ ParetoDominates b a) ∧
    ¬ (ParetoDominates a b ∧ NonDominated a b) ∧
    ¬ (ParetoDominates b a ∧ NonDominated a b) := by
  refine ⟨?_, ?_, ?_, ?_, ?_, ?_, ?_⟩
  · by_cases h1 : ∃ k, ∃ (ha : k < a.length) (hb : k < b.length), a[k] < b[k]
    · by_cases h2 : ∃ k, ∃ (ha : k < a.length) (hb : k < b.length), b[k] < a[k]
      · exact Or.inr (Or.inr (Or.inr ⟨h1, h2⟩))
      · refine Or.inr (Or.inr (Or.inl ⟨?_, ?_⟩))
        · intro k hb ha
          exact not_lt.mp (fun hlt => h2 ⟨k, ha, hb, hlt⟩)
        · obtain ⟨k, ha, hb, hlt⟩ := h1
          exact ⟨k, hb, ha, hlt⟩
    · by_cases h2 : ∃ k, ∃ (ha : k < a.length) (hb : k < b.length), b[k] < a[k]
      · refine Or.inr (Or.inl ⟨?_, h2⟩)
        intro k ha hb
        exact not_lt.mp (fun hlt => h1 ⟨k, ha, hb, hlt⟩)
      · left
        intro k ha hb
        exact le_antisymm (not_lt.mp (fun hlt => h2 ⟨k, ha, hb, hlt⟩))
          (not_lt.mp (fun hlt => h1 ⟨k, ha, hb, hlt⟩))
  · rintro ⟨he, _, k, ha, hb, hlt⟩
    exact absurd (he k ha hb) (ne_of_gt hlt)
  · rintro ⟨he, _, k, hb, ha, hlt⟩
    exact absurd (he k ha hb) (ne_of_lt hlt)
  · rintro ⟨he, ⟨k, ha, hb, hlt⟩, _⟩
    exact absurd (he k ha hb) (ne_of_lt hlt)
  · rintro ⟨⟨h1, _⟩, _, k, hb, ha, hlt⟩
    exact absurd (h1 k ha hb) (not_le.mpr hlt)
  · rintro ⟨⟨h1, _⟩, ⟨k, ha, hb, hlt⟩, _⟩
    exact absurd (h1 k ha hb) (not_le.mpr hlt)
  · rintro ⟨⟨h1, _⟩, _, k, ha, hb, hlt⟩
    exact absurd (h1 k hb ha) (not_le.mpr hlt)

/-- The value of `pareto_objs::operator()` once its assertions hold. -/
theorem pareto_objs_call_eq (self : pareto_objs) (i1 i2 : Fit α)
    (hlen : i1.objs.length = i2.objs.length) (hne : i1.objs.length ≠ 0) :
    self.call i1 i2 =
      if (pareto_objs.dominance_loop i1 i2 hlen).i1_equal_to_i2 then .ok self.base._equal
      else if (pareto_objs.dominance_loop i1 i2 hlen).i1_dominates_i2 then
        .ok self.base._greater
      else if (pareto_objs.dominance_loop i1 i2 hlen).i2_dominates_i1 then
        .ok self.base._smaller
      else .ok ((pareto_objs.lexical_loop self i1 i2 hlen).getD self.base._equal) := by
  have hne2 : i2.objs.length ≠ 0 := hlen ▸ hne
  simp [pareto_objs.call, hlen, hne2]

/-- C1: for every polarity and every two candidates whose objective vectors have
the same non-zero length, `pareto_objs::operator()` returns the equal outcome
when all objectives are equal, the greater outcome when `i1` Pareto-dominates
`i2`, the smaller outcome when `i2` Pareto-dominates `i1`, and for mutually
non-dominated vectors the smaller or greater outcome decided at the first index
where they differ; exactly one of the four cases holds. -/
theorem pareto_objs_call_classification (self : pareto_objs) (i1 i2 : Fit α)
    (hlen : i1.objs.length = i2.objs.length) (hne : i1.objs.length ≠ 0) :
    (AllEqual i1.objs i2.objs → self.call i1 i2 = .ok self.base._equal) ∧
    (ParetoDominates i1.objs i2.objs → self.call i1 i2 = .ok self.base._greater) ∧
    (ParetoDominates i2.objs i1.objs → self.call i1 i2 = .ok self.base._smaller) ∧
    (NonDominated i1.objs i2.objs →
      ∃ k, (FirstDiffLt i1.objs i2.objs k ∧ self.call i1 i2 = .ok self.base._smaller) ∨
           (FirstDiffLt i2.objs i1.objs k ∧ self.call i1 i2 = .ok self.base._greater)) ∧
    ((AllEqual i1.objs i2.objs ∨ ParetoDominates i1.objs i2.objs ∨
        ParetoDominates i2.objs i1.objs ∨ NonDominated i1.objs i2.objs) ∧
      ¬ (AllEqual i1.objs i2.objs ∧ ParetoDominates i1.objs i2.objs) ∧
      ¬ (AllEqual i1.objs i2.objs ∧ ParetoDominates i2.objs i1.objs) ∧
      ¬ (AllEqual i1.objs i2.objs ∧ NonDominated i1.objs i2.objs) ∧
      ¬ (ParetoDominates i1.objs i2.objs ∧ ParetoDominates i2.objs i1.objs) ∧
      ¬ (ParetoDominates i1.objs i2.objs ∧ NonDominated i1.objs i2.objs) ∧
      ¬ (ParetoDominates i2.objs i1.objs ∧ NonDominated i1.objs i2.objs)) := by
  obtain ⟨hE, hD1, hD2⟩ := pareto_objs_dominance_loop_spec i1 i2 hlen
  obtain ⟨_, hx1, hx2, hx3, _, _, _⟩ := pareto_cases_exactly_one i1.objs i2.objs
  have hcall := pareto_objs_call_eq self i1 i2 hlen hne
  refine ⟨?_, ?_, ?_, ?_, pareto_cases_exactly_one i1.objs i2.objs⟩
  · intro h
    rw [hcall, if_pos (hE.mpr h)]
  · intro h
    have hne1 : ¬ (pareto_objs.dominance_loop i1 i2 hlen).i1_equal_to_i2 = true :=
      fun he => hx1 ⟨hE.mp he, h⟩
    rw [hcall, if_neg hne1, if_pos (hD1.mpr h.1)]
  · intro h
    have hne1 : ¬ (pareto_objs.dominance_loop i1 i2 hlen).i1_equal_to_i2 = true :=
      fun he => hx2 ⟨hE.mp he, h⟩
    have hne2 : ¬ (pareto_objs.dominance_loop i1 i2 hlen).i1_dominates_i2 = true := by
      intro hd
      obtain ⟨k, hb, ha, hlt⟩ := h.2
      exact absurd (hD1.mp hd k ha hb) (not_le.mpr hlt)
    rw [hcall, if_neg hne1, if_neg hne2, if_pos (hD2.mpr (fun k ha hb => h.1 k hb ha))]
  · intro h
    have hne1 : ¬ (pareto_objs.dominance_loop i1 i2 hlen).i1_equal_to_i2 = true :=
      fun he => hx3 ⟨hE.mp he, h⟩
    have hne2 : ¬ (pareto_objs.dominance_loop i1 i2 hlen).i1_dominates_i2 = true := by
      intro hd
      obtain ⟨k, ha, hb, hlt⟩ := h.1
      exact absurd (hD1.mp hd k ha hb) (not_le.mpr hlt)
    have hne3 : ¬ (pareto_objs.dominance_loop i1 i2 hlen).i2_dominates_i1 = true := by
      intro hd
      obtain ⟨k, ha, hb, hlt⟩ := h.2
      exact absurd (hD2.mp hd k ha hb) (not_le.mpr hlt)
    rw [hcall, if_neg hne1, if_neg hne2, if_neg hne3, pareto_objs_lexical_loop_eq_zip]
    rcases lex_trichotomy i1.objs i2.objs with he | ⟨k, hk⟩ | ⟨k, hk⟩
    · exact absurd ⟨he, h⟩ hx3
    · refine ⟨k, Or.inl ⟨hk, ?_⟩⟩
      rw [findSome_zip_of_firstDiffLt _ _ _ _ k hk]
      rfl
    · refine ⟨k, Or.inr ⟨hk, ?_⟩⟩
      rw [findSome_zip_of_firstDiffGt _ _ _ _ k hk]
      rfl

/-- Scenario 5 as an instance of C1: `[3,5]` and `[4,4]` have equal non-zero
length and are mutually non-dominated, the ascending comparator gives
`cmp([3,5],[4,4]) = true` and `cmp([4,4],[3,5]) = false`, so `[4,4]` is
classified greater. -/
theorem pareto_objs_call_classification_witness :
    (([3, 5] : List Int).length = ([4, 4] : List Int).length) ∧
    ([3, 5] : List Int).length ≠ 0 ∧
    NonDominated ([3, 5] : List Int) [4, 4] ∧
    FirstDiffLt ([3, 5] : List Int) [4, 4] 0 ∧
    pareto_objs.new.base._smaller = true ∧
    pareto_objs.new.base._greater = false ∧
    pareto_objs.new.call (Fit.mk (0 : Int) [3, 5] 0 0) (Fit.mk 0 [4, 4] 0 0) = .ok true ∧
    pareto_objs.new.call (Fit.mk (0 : Int) [4, 4] 0 0) (Fit.mk 0 [3, 5] 0 0) = .ok false ∧
    (NonDominated ([3, 5] : List Int) [4, 4] →
      ∃ k, (FirstDiffLt ([3, 5] : List Int) [4, 4] k ∧
              pareto_objs.new.call (Fit.mk (0 : Int) [3, 5] 0 0) (Fit.mk 0 [4, 4] 0 0)
                = .ok pareto_objs.new.base._smaller) ∨
           (FirstDiffLt ([4, 4] : List Int) [3, 5] k ∧
              pareto_objs.new.call (Fit.mk (0 : Int) [3, 5] 0 0) (Fit.mk 0 [4, 4] 0 0)
                = .ok pareto_objs.new.base._greater)) :=
  ⟨by decide, by decide, by decide, by decide, by decide, by decide, by decide, by decide,
    (pareto_objs_call_classification pareto_objs.new
      (Fit.mk (0 : Int) [3, 5] 0 0) (Fit.mk 0 [4, 4] 0 0) (by decide) (by decide)).2.2.2.1⟩

end pareto_claims

/-! ## Claims about the scalar comparators -/

section scalar_claims

variable {α : Type} [LinearOrder α]

theorem performance_call_outcome (self : performance) (i1 i2 : Fit α) :
    PolarityOutcome self.base i1.value i2.value (self.call i1 i2) := by
  unfold PolarityOutcome performance.call
  rcases lt_trichotomy i1.value i2.value with h | h | h
  · simp [h, lt_asymm h, ne_of_lt h]
  · simp [h]
  · simp [h, lt_asymm h, ne_of_gt h]

theorem performance_mod_call_outcome (self : performance_mod) (i1 i2 : Fit α) :
    PolarityOutcome self.base (toLex (i1.value, i1.mod)) (toLex (i2.value, i2.mod))
      (self.call i1 i2) := by
  unfold PolarityOutcome performance_mod.call
  simp only [Prod.Lex.lt_iff, EmbeddingLike.apply_eq_iff_eq, Prod.mk.injEq]
  rcases lt_trichotomy i1.value i2.value with h | h | h
  · simp [h, lt_asymm h, ne_of_lt h, ne_of_gt h]
  · rcases lt_trichotomy i1.mod i2.mod with hm | hm | hm
    · simp [h, hm, lt_asymm hm, ne_of_lt hm, ne_of_gt hm]
    · simp [h, hm]
    · simp [h, hm, lt_asymm hm, ne_of_lt hm, ne_of_gt hm]
  · simp [h, lt_asymm h, ne_of_lt h, ne_of_gt h]

theorem performance_mod_cppnmod_call_outcome (self : performance_mod_cppnmod)
    (i1 i2 : Fit α) :
    PolarityOutcome self.base
      (toLex (i1.value, toLex (i1.mod, i1.cppn_mod)))
      (toLex (i2.value, toLex (i2.mod, i2.cppn_mod)))
      (self.call i1 i2) := by
  unfold PolarityOutcome performance_mod_cppnmod.call
  simp only [Prod.Lex.lt_iff, EmbeddingLike.apply_eq_iff_eq, Prod.mk.injEq]
  rcases lt_trichotomy i1.value i2.value with h | h | h
  · simp [h, lt_asymm h, ne_of_lt h, ne_of_gt h]
  · rcases lt_trichotomy i1.mod i2.mod with hm | hm | hm
    · simp [h, hm, lt_asymm hm, ne_of_lt hm, ne_of_gt hm]
    · rcases lt_trichotomy i1.cppn_mod i2.cppn_mod with hc | hc | hc
      · simp [h, hm, hc, lt_asymm hc, ne_of_lt hc, ne_of_gt hc]
      · simp [h, hm, hc]
      · simp [h, hm, hc, lt_asymm hc, ne_of_lt hc, ne_of_gt hc]
    · simp [h, hm, lt_asymm hm, ne_of_lt hm, ne_of_gt hm]
  · simp [h, lt_asymm h, ne_of_lt h, ne_of_gt h]

/-- With smaller outcome `true` and the other two `false`, the result is `true`
exactly for a smaller key; with greater outcome `true`, exactly for a greater
key. -/
theorem PolarityOutcome_true_iff {κ : Type} [LinearOrder κ] {c : compare} {k1 k2 : κ}
    {r : Bool} (h : PolarityOutcome c k1 k2 r) :
    (c = compare.new .order_ascending → (r = true ↔ k1 < k2)) ∧
    (c = compare.new .order_descending → (r = true ↔ k2 < k1)) := by
  obtain ⟨h1, h2, h3⟩ := h
  constructor
  · rintro rfl
    rcases lt_trichotomy k1 k2 with hk | hk | hk
    · simp [h1 hk, hk, compare.new, compare.ascending, compare.smallerThan]
    · simp [h3 hk, hk, compare.new, compare.ascending, compare.smallerThan]
    · simp [h2 hk, lt_asymm hk, compare.new, compare.ascending, compare.smallerThan]
  · rintro rfl
    rcases lt_trichotomy k1 k2 with hk | hk | hk
    · simp [h1 hk, lt_asymm hk, compare.new, compare.descending, compare.greaterThan]
    · simp [h3 hk, hk, compare.new, compare.descending, compare.greaterThan]
    · simp [h2 hk, hk, compare.new, compare.descending, compare.greaterThan]

/-- C2: each of `performance`, `performance_mod` and `performance_mod_cppnmod`
returns, for every polarity and every two candidates, the smaller outcome when
the key tuple of `i1` is lexicographically less than that of `i2`, the greater
outcome when it is lexicographically greater, and the equal outcome when all
keys are equal; so a default-constructed (ascending) comparator is `true`
exactly for a lexicographically smaller key tuple and a descending one exactly
for a lexicographically greater one. -/
theorem scalar_comparators_lexicographic (i1 i2 : Fit α) :
    (∀ self : performance,
      PolarityOutcome self.base i1.value i2.value (self.call i1 i2)) ∧
    (∀ self : performance_mod,
      PolarityOutcome self.base (toLex (i1.value, i1.mod)) (toLex (i2.value, i2.mod))
        (self.call i1 i2)) ∧
    (∀ self : performance_mod_cppnmod,
      PolarityOutcome self.base
        (toLex (i1.value, toLex (i1.mod, i1.cppn_mod)))
        (toLex (i2.value, toLex (i2.mod, i2.cppn_mod)))
        (self.call i1 i2)) ∧
    (performance.new.call i1 i2 = true ↔ i1.value < i2.value) ∧
    (performance.new.ascending.call i1 i2 = true ↔ i1.value < i2.value) ∧
    (performance.new.descending.call i1 i2 = true ↔ i2.value < i1.value) ∧
    (performance_mod.new.call i1 i2 = true ↔
      toLex (i1.value, i1.mod) < toLex (i2.value, i2.mod)) ∧
    (performance_mod.new.ascending.call i1 i2 = true ↔
      toLex (i1.value, i1.mod) < toLex (i2.value, i2.mod)) ∧
    (performance_mod.new.descending.call i1 i2 = true ↔
      toLex (i2.value, i2.mod) < toLex (i1.value, i1.mod)) ∧
    (performance_mod_cppnmod.new.call i1 i2 = true ↔
      toLex (i1.value, toLex (i1.mod, i1.cppn_mod)) <
        toLex (i2.value, toLex (i2.mod, i2.cppn_mod))) ∧
    (performance_mod_cppnmod.new.ascending.call i1 i2 = true ↔
      toLex (i1.value, toLex (i1.mod, i1.cppn_mod)) <
        toLex (i2.value, toLex (i2.mod, i2.cppn_mod))) ∧
    (performance_mod_cppnmod.new.descending.call i1 i2 = true ↔
      toLex (i2.value, toLex (i2.mod, i2.cppn_mod)) <
        toLex (i1.value, toLex (i1.mod, i1.cppn_mod))) :=
  ⟨fun self => performance_call_outcome self i1 i2,
   fun self => performance_mod_call_outcome self i1 i2,
   fun self => performance_mod_cppnmod_call_outcome self i1 i2,
   (PolarityOutcome_true_iff (performance_call_outcome performance.new i1 i2)).1 rfl,
   (PolarityOutcome_true_iff
     (performance_call_outcome performance.new.ascending i1 i2)).1 rfl,
   (PolarityOutcome_true_iff
     (performance_call_outcome performance.new.descending i1 i2)).2 rfl,
   (PolarityOutcome_true_iff
     (performance_mod_call_outcome performance_mod.new i1 i2)).1 rfl,
   (PolarityOutcome_true_iff
     (performance_mod_call_outcome performance_mod.new.ascending i1 i2)).1 rfl,
   (PolarityOutcome_true_iff
     (performance_mod_call_outcome performance_mod.new.descending i1 i2)).2 rfl,
   (PolarityOutcome_true_iff
     (performance_mod_cppnmod_call_outcome performance_mod_cppnmod.new i1 i2)).1 rfl,
   (PolarityOutcome_true_iff
     (performance_mod_cppnmod_call_outcome performance_mod_cppnmod.new.ascending i1 i2)).1 rfl,
   (PolarityOutcome_true_iff
     (performance_mod_cppnmod_call_outcome performance_mod_cppnmod.new.descending i1 i2)).2
     rfl⟩

end scalar_claims

/-! ## `pareto_objs` as a lexicographic comparison -/

section pareto_order

variable {α : Type} [LinearOrder α]

theorem FirstDiffLt_irrefl (a : List α) (k : Nat) : ¬ FirstDiffLt a a k := by
  rintro ⟨_, ha, _, hlt⟩
  exact lt_irrefl _ hlt

theorem FirstDiffLt_trans {a b d : List α} {k m : Nat} (hab : a.length = b.length)
    (hbd : b.length = d.length) (h1 : FirstDiffLt a b k) (h2 : FirstDiffLt b d m) :
    LexLt a d := by
  obtain ⟨e1, ha, hb, lt1⟩ := h1
  obtain ⟨e2, hb2, hd, lt2⟩ := h2
  have hka : k < d.length := by omega
  have hma : m < a.length := by omega
  rcases Nat.lt_trichotomy k m with hkm | hkm | hkm
  · refine ⟨k, ?_, ha, hka, ?_⟩
    · intro j hj hja hjd
      have hjb : j < b.length := by omega
      exact (e1 j hj hja hjb).trans (e2 j (lt_trans hj hkm) hjb hjd)
    · exact (e2 k hkm hb hka) ▸ lt1
  · subst hkm
    refine ⟨k, ?_, ha, hd, lt_trans lt1 lt2⟩
    intro j hj hja hjd
    have hjb : j < b.length := by omega
    exact (e1 j hj hja hjb).trans (e2 j hj hjb hjd)
  · refine ⟨m, ?_, hma, hd, ?_⟩
    · intro j hj hja hjd
      have hjb : j < b.length := by omega
      exact (e1 j (lt_trans hj hkm) hja hjb).trans (e2 j hj hjb hjd)
    · exact (e1 m hkm hma hb2) ▸ lt2

/-- The result of `pareto_objs::operator()` is the one a comparison at the first
differing index gives. -/
theorem pareto_objs_call_lexicographic (self : pareto_objs) (i1 i2 : Fit α)
    (hlen : i1.objs.length = i2.objs.length) (hne : i1.objs.length ≠ 0) :
    (AllEqual i1.objs i2.objs → self.call i1 i2 = .ok self.base._equal) ∧
    (LexLt i1.objs i2.objs → self.call i1 i2 = .ok self.base._smaller) ∧
    (LexLt i2.objs i1.objs → self.call i1 i2 = .ok self.base._greater) := by
  obtain ⟨hE, hD1, hD2⟩ := pareto_objs_dominance_loop_spec i1 i2 hlen
  have hcall := pareto_objs_call_eq self i1 i2 hlen hne
  refine ⟨?_, ?_, ?_⟩
  · intro h
    rw [hcall, if_pos (hE.mpr h)]
  · rintro ⟨k, hk⟩
    have hne1 : ¬ (pareto_objs.dominance_loop i1 i2 hlen).i1_equal_to_i2 = true :=
      fun he => FirstDiffLt_not_allEqual hk (hE.mp he)
    have hne2 : ¬ (pareto_objs.dominance_loop i1 i2 hlen).i1_dominates_i2 = true := by
      intro hd
      obtain ⟨_, ha, hb, hlt⟩ := hk
      exact absurd (hD1.mp hd k ha hb) (not_le.mpr hlt)
    rw [hcall, if_neg hne1, if_neg hne2, pareto_objs_lexical_loop_eq_zip,
      findSome_zip_of_firstDiffLt _ _ _ _ k hk]
    simp
  · rintro ⟨k, hk⟩
    have hne1 : ¬ (pareto_objs.dominance_loop i1 i2 hlen).i1_equal_to_i2 = true :=
      fun he => FirstDiffLt_not_allEqual_symm hk (hE.mp he)
    have hne3 : ¬ (pareto_objs.dominance_loop i1 i2 hlen).i2_dominates_i1 = true := by
      intro hd
      obtain ⟨_, hb, ha, hlt⟩ := hk
      exact absurd (hD2.mp hd k ha hb) (not_le.mpr hlt)
    rw [hcall, if_neg hne1, if_neg hne3, pareto_objs_lexical_loop_eq_zip,
      findSome_zip_of_firstDiffGt _ _ _ _ k hk]
    simp

/-- Under the ascending polarity the comparator is `true` exactly when `i1` is
lexicographically smaller, and `false` otherwise. -/
theorem pareto_objs_call_ascending (self : pareto_objs)
    (hpol : self.base = compare.new .order_ascending) (i1 i2 : Fit α)
    (hlen : i1.objs.length = i2.objs.length) (hne : i1.objs.length ≠ 0) :
    (LexLt i1.objs i2.objs → self.call i1 i2 = .ok true) ∧
    (¬ LexLt i1.objs i2.objs → self.call i1 i2 = .ok false) := by
  obtain ⟨h1, h2, h3⟩ := pareto_objs_call_lexicographic self i1 i2 hlen hne
  have hs : self.base._smaller = true := by rw [hpol]; rfl
  have hg : self.base._greater = false := by rw [hpol]; rfl
  have he : self.base._equal = false := by rw [hpol]; rfl
  constructor
  · intro h
    rw [h2 h, hs]
  · intro h
    rcases lex_trichotomy i1.objs i2.objs with h4 | h4 | h4
    · rw [h1 h4, he]
    · exact absurd h4 h
    · rw [h3 h4, hg]

/-- Under the descending polarity the comparator is `true` exactly when `i1` is
lexicographically greater, and `false` otherwise. -/
theorem pareto_objs_call_descending (self : pareto_objs)
    (hpol : self.base = compare.new .order_descending) (i1 i2 : Fit α)
    (hlen : i1.objs.length = i2.objs.length) (hne : i1.objs.length ≠ 0) :
    (LexLt i2.objs i1.objs → self.call i1 i2 = .ok true) ∧
    (¬ LexLt i2.objs i1.objs → self.call i1 i2 = .ok false) := by
  obtain ⟨h1, h2, h3⟩ := pareto_objs_call_lexicographic self i1 i2 hlen hne
  have hs : self.base._smaller = false := by rw [hpol]; rfl
  have hg : self.base._greater = true := by rw [hpol]; rfl
  have he : self.base._equal = false := by rw [hpol]; rfl
  constructor
  · intro h
    rw [h3 h, hg]
  · intro h
    rcases lex_trichotomy i1.objs i2.objs with h4 | h4 | h4
    · rw [h1 h4, he]
    · rw [h2 h4, hs]
    · exact absurd h4 h

/-- For either polarity there is a relation `lt` on objective vectors, either
`LexLt` or its converse, that the comparator decides. -/
theorem pareto_objs_call_decides (self : pareto_objs)
    (hpol : self.base = compare.new .order_ascending ∨
      self.base = compare.new .order_descending) :
    ∃ lt : List α → List α → Prop,
      (lt = LexLt ∨ lt = fun a b => LexLt b a) ∧
      ∀ i1 i2 : Fit α, i1.objs.length = i2.objs.length → i1.objs.length ≠ 0 →
        (lt i1.objs i2.objs → self.call i1 i2 = .ok true) ∧
        (¬ lt i1.objs i2.objs → self.call i1 i2 = .ok false) := by
  rcases hpol with hpol | hpol
  · exact ⟨LexLt, Or.inl rfl, fun i1 i2 => pareto_objs_call_ascending self hpol i1 i2⟩
  · exact ⟨fun a b => LexLt b a, Or.inr rfl,
      fun i1 i2 => pareto_objs_call_descending self hpol i1 i2⟩

end pareto_order

/-! ## Strict weak ordering -/

section weak_order

variable {α : Type}

/-- A comparator that decides a relation which is irreflexive, asymmetric,
transitive and has transitive incomparability on vectors of one length is a
strict weak ordering on the candidates with objective vectors of that length. -/
theorem strict_weak_of_decides (lt : List α → List α → Prop)
    (cmp : Fit α → Fit α → Res Bool) (n : Nat) (hn : n ≠ 0)
    (hirr : ∀ a, ¬ lt a a)
    (hasym : ∀ a b, lt a b → ¬ lt b a)
    (htrans : ∀ a b d : List α, a.length = b.length → b.length = d.length →
      lt a b → lt b d → lt a d)
    (hinc : ∀ a b d : List α, a.length = b.length → b.length = d.length →
      ¬ lt a b → ¬ lt b a → ¬ lt b d → ¬ lt d b → ¬ lt a d ∧ ¬ lt d a)
    (hdec : ∀ i1 i2 : Fit α, i1.objs.length = i2.objs.length → i1.objs.length ≠ 0 →
      (lt i1.objs i2.objs → cmp i1 i2 = .ok true) ∧
      (¬ lt i1.objs i2.objs → cmp i1 i2 = .ok false)) :
    (∀ a : Fit α, a.objs.length = n → cmp a a = .ok false) ∧
    (∀ a b : Fit α, a.objs.length = n → b.objs.length = n →
      ¬ (cmp a b = .ok true ∧ cmp b a = .ok true)) ∧
    (∀ a b d : Fit α, a.objs.length = n → b.objs.length = n → d.objs.length = n →
      cmp a b = .ok true → cmp b d = .ok true → cmp a d = .ok true) ∧
    (∀ a b d : Fit α, a.objs.length = n → b.objs.length = n → d.objs.length = n →
      cmp a b = .ok false → cmp b a = .ok false →
      cmp b d = .ok false → cmp d b = .ok false →
      cmp a d = .ok false ∧ cmp d a = .ok false) := by
  have of_true : ∀ a b : Fit α, a.objs.length = n → b.objs.length = n →
      cmp a b = .ok true → lt a.objs b.objs := by
    intro a b ha hb h
    by_contra hlt
    have := (hdec a b (ha.trans hb.symm) (ha ▸ hn)).2 hlt
    rw [h] at this
    cases this
  have of_false : ∀ a b : Fit α, a.objs.length = n → b.objs.length = n →
      cmp a b = .ok false → ¬ lt a.objs b.objs := by
    intro a b ha hb h hlt
    have := (hdec a b (ha.trans hb.symm) (ha ▸ hn)).1 hlt
    rw [h] at this
    cases this
  refine ⟨?_, ?_, ?_, ?_⟩
  · intro a ha
    exact (hdec a a rfl (ha ▸ hn)).2 (hirr a.objs)
  · rintro a b ha hb ⟨h1, h2⟩
    exact hasym _ _ (of_true a b ha hb h1) (of_true b a hb ha h2)
  · intro a b d ha hb hd h1 h2
    exact (hdec a d (ha.trans hd.symm) (ha ▸ hn)).1
      (htrans _ _ _ (ha.trans hb.symm) (hb.trans hd.symm) (of_true a b ha hb h1)
        (of_true b d hb hd h2))
  · intro a b d ha hb hd h1 h2 h3 h4
    obtain ⟨h5, h6⟩ := hinc _ _ _ (ha.trans hb.symm) (hb.trans hd.symm)
      (of_false a b ha hb h1) (of_false b a hb ha h2) (of_false b d hb hd h3)
      (of_false d b hd hb h4)
    exact ⟨(hdec a d (ha.trans hd.symm) (ha ▸ hn)).2 h5,
      (hdec d a (hd.trans ha.symm) (hd ▸ hn)).2 h6⟩

end weak_order

section pareto_swo

variable {α : Type} [LinearOrder α]

theorem LexLt_irrefl (a : List α) : ¬ LexLt a a :=
  fun ⟨k, hk⟩ => FirstDiffLt_irrefl a k hk

theorem LexLt_asymm {a b : List α} (h : LexLt a b) : ¬ LexLt b a :=
  fun ⟨_, hm⟩ => h.elim (fun _ hk => FirstDiffLt_asymm hk hm)

theorem LexLt_trans {a b d : List α} (hab : a.length = b.length) (hbd : b.length = d.length)
    (h1 : LexLt a b) (h2 : LexLt b d) : LexLt a d := by
  obtain ⟨k, hk⟩ := h1
  obtain ⟨m, hm⟩ := h2
  exact FirstDiffLt_trans hab hbd hk hm

theorem AllEqual_of_not_lexLt {a b : List α} (h1 : ¬ LexLt a b) (h2 : ¬ LexLt b a) :
    AllEqual a b := by
  rcases lex_trichotomy a b with h | h | h
  · exact h
  · exact absurd h h1
  · exact absurd h h2

theorem AllEqual_not_lexLt {a b : List α} (h : AllEqual a b) : ¬ LexLt a b :=
  fun ⟨_, hk⟩ => FirstDiffLt_not_allEqual hk h

theorem LexLt_incomparable_trans {a b d : List α} (hab : a.length = b.length)
    (hbd : b.length = d.length) (h1 : ¬ LexLt a b) (h2 : ¬ LexLt b a) (h3 : ¬ LexLt b d)
    (h4 : ¬ LexLt d b) : ¬ LexLt a d ∧ ¬ LexLt d a := by
  have hE : AllEqual a d :=
    AllEqual_trans hab (AllEqual_of_not_lexLt h1 h2) (AllEqual_of_not_lexLt h3 h4)
  have _ := hbd
  exact ⟨AllEqual_not_lexLt hE, AllEqual_not_lexLt (AllEqual_symm hE)⟩

/-- C3: for the ascending and for the descending polarity,
`pareto_objs::operator()` restricted to candidates whose objective vectors have
one common non-zero length `n` is a strict weak ordering: irreflexive,
asymmetric, transitive, and with a transitive incomparability relation. -/
theorem pareto_objs_strict_weak_ordering (self : pareto_objs)
    (hpol : self.base = compare.new .order_ascending ∨
      self.base = compare.new .order_descending)
    (n : Nat) (hn : n ≠ 0) :
    (∀ a : Fit α, a.objs.length = n → self.call a a = .ok false) ∧
    (∀ a b : Fit α, a.objs.length = n → b.objs.length = n →
      ¬ (self.call a b = .ok true ∧ self.call b a = .ok true)) ∧
    (∀ a b d : Fit α, a.objs.length = n → b.objs.length = n → d.objs.length = n →
      self.call a b = .ok true → self.call b d = .ok true → self.call a d = .ok true) ∧
    (∀ a b d : Fit α, a.objs.length = n → b.objs.length = n → d.objs.length = n →
      self.call a b = .ok false → self.call b a = .ok false →
      self.call b d = .ok false → self.call d b = .ok false →
      self.call a d = .ok false ∧ self.call d a = .ok false) := by
  rcases hpol with hpol | hpol
  · exact strict_weak_of_decides LexLt self.call n hn LexLt_irrefl
      (fun _ _ h => LexLt_asymm h) (fun _ _ _ hab hbd => LexLt_trans hab hbd)
      (fun _ _ _ hab hbd => LexLt_incomparable_trans hab hbd)
      (fun i1 i2 => pareto_objs_call_ascending self hpol i1 i2)
  · exact strict_weak_of_decides (fun a b => LexLt b a) self.call n hn LexLt_irrefl
      (fun _ _ h => LexLt_asymm h)
      (fun _ _ _ hab hbd h1 h2 => LexLt_trans hbd.symm hab.symm h2 h1)
      (fun _ _ _ hab hbd h1 h2 h3 h4 =>
        (LexLt_incomparable_trans hab hbd h2 h1 h4 h3).symm)
      (fun i1 i2 => pareto_objs_call_descending self hpol i1 i2)

/-- An instance of C3 for the descending comparator on vectors of length 2:
`[4,4]` comes before `[3,5]`, `[3,5]` before `[3,1]`, hence `[4,4]` before
`[3,1]`. -/
theorem pareto_objs_strict_weak_ordering_witness :
    (pareto_objs.new.descending.base = compare.new .order_ascending ∨
      pareto_objs.new.descending.base = compare.new .order_descending) ∧
    2 ≠ 0 ∧
    pareto_objs.new.descending.call (Fit.mk (0 : Int) [4, 4] 0 0) (Fit.mk 0 [3, 5] 0 0)
      = .ok true ∧
    pareto_objs.new.descending.call (Fit.mk (0 : Int) [3, 5] 0 0) (Fit.mk 0 [3, 1] 0 0)
      = .ok true ∧
    pareto_objs.new.descending.call (Fit.mk (0 : Int) [4, 4] 0 0) (Fit.mk 0 [3, 1] 0 0)
      = .ok true :=
  ⟨Or.inr rfl, by decide, by decide, by decide,
    (pareto_objs_strict_weak_ordering pareto_objs.new.descending (Or.inr rfl) 2
      (by decide)).2.2.1
      (Fit.mk (0 : Int) [4, 4] 0 0) (Fit.mk 0 [3, 5] 0 0) (Fit.mk 0 [3, 1] 0 0)
      rfl rfl rfl (by decide) (by decide)⟩

end pareto_swo

/-! ## Reads and percentiles -/

section percentile

theorem Res_read_of_lt {α : Type} (container : List α) (i : Nat) (h : i < container.length) :
    Res.read container i = .ok container[i] := by
  simp [Res.read, List.getElem?_eq_getElem h]

theorem Res_ok_bind {α β : Type} (a : α) (f : α → Res β) : (Res.ok a >>= f) = f a := rfl

theorem Res_pure_eq {α : Type} (a : α) : (pure a : Res α) = Res.ok a := rfl

/-- The position `(n - 1) * p` lies in `[0, n - 1]` for `0 ≤ p ≤ 1`, so both
indices read by `getPercentile` are inside a non-empty container. -/
theorem getPercentile_index_bounds (n : Nat) (p : ℚ) (hn : 0 < n) (hp0 : 0 ≤ p)
    (hp1 : p ≤ 1) :
    0 ≤ ⌊((n : ℚ) - 1) * p⌋ ∧ ⌊((n : ℚ) - 1) * p⌋.toNat < n ∧
      ⌈((n : ℚ) - 1) * p⌉.toNat < n := by
  have hn1 : (0 : ℚ) ≤ (n : ℚ) - 1 := by
    have : (1 : ℚ) ≤ n := by exact_mod_cast hn
    linarith
  have h0 : 0 ≤ ((n : ℚ) - 1) * p := mul_nonneg hn1 hp0
  have h1 : ((n : ℚ) - 1) * p ≤ (n : ℚ) - 1 := mul_le_of_le_one_right hn1 hp1
  have hfl : 0 ≤ ⌊((n : ℚ) - 1) * p⌋ := Int.floor_nonneg.mpr h0
  have hce : ⌈((n : ℚ) - 1) * p⌉ ≤ (n : Int) - 1 := by
    rw [Int.ceil_le]
    push_cast
    exact h1
  have hfc : ⌊((n : ℚ) - 1) * p⌋ ≤ ⌈((n : ℚ) - 1) * p⌉ := Int.floor_le_ceil _
  refine ⟨hfl, ?_, ?_⟩ <;> omega

/-- The value of `getPercentile` on a non-empty container for `0 ≤ p ≤ 1`. -/
theorem getPercentile_eq (S : List ℚ) (p : ℚ) (hne : S ≠ []) (hp0 : 0 ≤ p) (hp1 : p ≤ 1) :
    ∃ (hlo : ⌊((S.length : ℚ) - 1) * p⌋.toNat < S.length)
      (hhi : ⌈((S.length : ℚ) - 1) * p⌉.toNat < S.length),
      getPercentile S p = .ok
        (S[⌊((S.length : ℚ) - 1) * p⌋.toNat] *
            (((S.length : ℚ) - 1) * p - ⌊((S.length : ℚ) - 1) * p⌋) +
          S[⌈((S.length : ℚ) - 1) * p⌉.toNat] *
            (1 - (((S.length : ℚ) - 1) * p - ⌊((S.length : ℚ) - 1) * p⌋))) := by
  have hn : 0 < S.length := List.length_pos.mpr hne
  obtain ⟨h0, hlo, hhi⟩ := getPercentile_index_bounds S.length p hn hp0 hp1
  refine ⟨hlo, hhi, ?_⟩
  unfold getPercentile
  simp only [if_neg (not_lt.mpr h0), Res_read_of_lt S _ hlo, Res_read_of_lt S _ hhi,
    Res_ok_bind, Res_pure_eq]

/-- When the position `(n - 1) * q` is an integer `j`, both reads of
`getPercentile` hit index `j` and the result is the element there. -/
theorem getPercentile_of_index (S : List ℚ) (q : ℚ) (j : Int) (hne : S ≠ [])
    (hq0 : 0 ≤ q) (hq1 : q ≤ 1) (hj : ((S.length : ℚ) - 1) * q = (j : ℚ)) :
    ∃ h : j.toNat < S.length, (j.toNat : Int) = j ∧ getPercentile S q = .ok S[j.toNat] := by
  have hn : 0 < S.length := List.length_pos.mpr hne
  obtain ⟨hlo, hhi, hval⟩ := getPercentile_eq S q hne hq0 hq1
  obtain ⟨h0, _, _⟩ := getPercentile_index_bounds S.length q hn hq0 hq1
  have hfl : ⌊((S.length : ℚ) - 1) * q⌋ = j := by rw [hj]; exact Int.floor_intCast j
  have hce : ⌈((S.length : ℚ) - 1) * q⌉ = j := by rw [hj]; exact Int.ceil_intCast j
  have hj0 : 0 ≤ j := hfl ▸ h0
  refine ⟨hfl ▸ hlo, Int.toNat_of_nonneg hj0, ?_⟩
  rw [hval]
  simp only [hfl, hce, hj]
  simp

/-- C4: for a non-empty sequence `S` of length `n` and `p` in `[0,1]` such that
`(n-1)*p` is an integer `k`, `getPercentile(S, p)` returns exactly `S[k]`; in
particular `getPercentile(S, 0)` is the first and `getPercentile(S, 1)` the last
element. -/
theorem getPercentile_exact_index (S : List ℚ) (p : ℚ) (k : Int) (hne : S ≠ [])
    (hp0 : 0 ≤ p) (hp1 : p ≤ 1) (hk : ((S.length : ℚ) - 1) * p = (k : ℚ)) :
    (∃ h : k.toNat < S.length, (k.toNat : Int) = k ∧ getPercentile S p = .ok S[k.toNat]) ∧
    getPercentile S 0 = .ok (S.head hne) ∧
    getPercentile S 1 = .ok (S.getLast hne) := by
  have hn : 0 < S.length := List.length_pos.mpr hne
  refine ⟨getPercentile_of_index S p k hne hp0 hp1 hk, ?_, ?_⟩
  · obtain ⟨h, _, hv⟩ := getPercentile_of_index S 0 0 hne le_rfl zero_le_one (by simp)
    rw [hv]
    cases S with
    | nil => exact absurd rfl hne
    | cons x xs => simp
  · obtain ⟨h, _, hv⟩ := getPercentile_of_index S 1 ((S.length : Int) - 1) hne zero_le_one
      le_rfl (by push_cast; ring)
    rw [hv]
    have hidx : ((S.length : Int) - 1).toNat = S.length - 1 := by omega
    simp only [hidx]
    rw [List.getLast_eq_getElem]

end percentile

section percentile_witness

/-- Scenario 4 as an instance of C4: on `[0.1, ..., 0.9]` (`n = 9`) the positions
`8 * 0.25 = 2`, `8 * 0.5 = 4`, `8 * 0.75 = 6` are integers and the values are
`0.3`, `0.5`, `0.7`; at `p = 0` and `p = 1` the ends `0.1` and `0.9`. -/
theorem getPercentile_exact_index_witness :
    ([1/10, 2/10, 3/10, 4/10, 5/10, 6/10, 7/10, 8/10, 9/10] : List ℚ) ≠ [] ∧
    (0 : ℚ) ≤ 1/4 ∧ (1/4 : ℚ) ≤ 1 ∧
    ((([1/10, 2/10, 3/10, 4/10, 5/10, 6/10, 7/10, 8/10, 9/10] : List ℚ).length : ℚ) - 1)
      * (1/4) = ((2 : Int) : ℚ) ∧
    getPercentile [1/10, 2/10, 3/10, 4/10, 5/10, 6/10, 7/10, 8/10, 9/10] (1/4)
      = .ok (3/10) ∧
    getPercentile [1/10, 2/10, 3/10, 4/10, 5/10, 6/10, 7/10, 8/10, 9/10] (1/2)
      = .ok (5/10) ∧
    getPercentile [1/10, 2/10, 3/10, 4/10, 5/10, 6/10, 7/10, 8/10, 9/10] (3/4)
      = .ok (7/10) ∧
    getPercentile [1/10, 2/10, 3/10, 4/10, 5/10, 6/10, 7/10, 8/10, 9/10] 0
      = .ok (1/10) ∧
    getPercentile [1/10, 2/10, 3/10, 4/10, 5/10, 6/10, 7/10, 8/10, 9/10] 1
      = .ok (9/10) := by
  have hS : ([1/10, 2/10, 3/10, 4/10, 5/10, 6/10, 7/10, 8/10, 9/10] : List ℚ) ≠ [] := by
    simp
  refine ⟨hS, by norm_num, by norm_num, by norm_num, ?_, ?_, ?_, ?_, ?_⟩
  · obtain ⟨_, _, hv⟩ := (getPercentile_exact_index _ (1/4) 2 hS (by norm_num)
      (by norm_num) (by norm_num)).1
    rw [hv]
    rfl
  · obtain ⟨_, _, hv⟩ := (getPercentile_exact_index _ (1/2) 4 hS (by norm_num)
      (by norm_num) (by norm_num)).1
    rw [hv]
    rfl
  · obtain ⟨_, _, hv⟩ := (getPercentile_exact_index _ (3/4) 6 hS (by norm_num)
      (by norm_num) (by norm_num)).1
    rw [hv]
    rfl
  · rw [(getPercentile_exact_index _ (1/4) 2 hS (by norm_num) (by norm_num)
      (by norm_num)).2.1]
    rfl
  · rw [(getPercentile_exact_index _ (1/4) 2 hS (by norm_num) (by norm_num)
      (by norm_num)).2.2]
    rfl

end percentile_witness

/-! ## Extremal elements and the mean -/

section extremal

variable {α : Type} [LinearOrder α]

theorem min_element_loop_spec (smallest : α) (l : List α) :
    min_element_loop smallest l ∈ smallest :: l ∧
      ∀ x ∈ smallest :: l, min_element_loop smallest l ≤ x := by
  induction l generalizing smallest with
  | nil => simp [min_element_loop]
  | cons y l ih =>
    obtain ⟨hmem, hle⟩ := ih (if y < smallest then y else smallest)
    have hy : (if y < smallest then y else smallest) ≤ y := by
      split_ifs with h
      · exact le_rfl
      · exact not_lt.mp h
    have hs : (if y < smallest then y else smallest) ≤ smallest := by
      split_ifs with h
      · exact le_of_lt h
      · exact le_rfl
    have hin : (if y < smallest then y else smallest) ∈ smallest :: y :: l := by
      split_ifs <;> simp
    refine ⟨?_, ?_⟩
    · rcases List.mem_cons.mp hmem with h | h
      · simp only [min_element_loop]
        rw [h]
        exact hin
      · simp only [min_element_loop]
        exact List.mem_cons_of_mem _ (List.mem_cons_of_mem _ h)
    · intro x hx
      simp only [min_element_loop]
      have h0 := hle _ (List.mem_cons_self _ _)
      rcases List.mem_cons.mp hx with rfl | hx
      · exact le_trans h0 hs
      · rcases List.mem_cons.mp hx with rfl | hx
        · exact le_trans h0 hy
        · exact hle x (List.mem_cons_of_mem _ hx)

theorem max_element_loop_spec (largest : α) (l : List α) :
    max_element_loop largest l ∈ largest :: l ∧
      ∀ x ∈ largest :: l, x ≤ max_element_loop largest l := by
  induction l generalizing largest with
  | nil => simp [max_element_loop]
  | cons y l ih =>
    obtain ⟨hmem, hle⟩ := ih (if largest < y then y else largest)
    have hy : y ≤ (if largest < y then y else largest) := by
      split_ifs with h
      · exact le_rfl
      · exact not_lt.mp h
    have hs : largest ≤ (if largest < y then y else largest) := by
      split_ifs with h
      · exact le_of_lt h
      · exact le_rfl
    have hin : (if largest < y then y else largest) ∈ largest :: y :: l := by
      split_ifs <;> simp
    refine ⟨?_, ?_⟩
    · rcases List.mem_cons.mp hmem with h | h
      · simp only [max_element_loop]
        rw [h]
        exact hin
      · simp only [max_element_loop]
        exact List.mem_cons_of_mem _ (List.mem_cons_of_mem _ h)
    · intro x hx
      simp only [max_element_loop]
      have h0 := hle _ (List.mem_cons_self _ _)
      rcases List.mem_cons.mp hx with rfl | hx
      · exact le_trans hs h0
      · rcases List.mem_cons.mp hx with rfl | hx
        · exact le_trans hy h0
        · exact hle x (List.mem_cons_of_mem _ hx)

/-- On a non-empty container `min` and `max` return elements that bound every
element. -/
theorem min_max_bounds (S : List α) (hne : S ≠ []) :
    ∃ mn mx, min S = .ok mn ∧ max S = .ok mx ∧ mn ∈ S ∧ mx ∈ S ∧
      ∀ x ∈ S, mn ≤ x ∧ x ≤ mx := by
  cases S with
  | nil => exact absurd rfl hne
  | cons s l =>
    obtain ⟨h1, h2⟩ := min_element_loop_spec s l
    obtain ⟨h3, h4⟩ := max_element_loop_spec s l
    exact ⟨min_element_loop s l, max_element_loop s l, rfl, rfl, h1, h3,
      fun x hx => ⟨h2 x hx, h4 x hx⟩⟩

/-- C10: on every non-empty sequence `S` the comparator-less overloads `min(S)`
and `max(S)` return elements of `S` with `min(S) <= x <= max(S)` for every
element `x` of `S`. -/
theorem min_max_spec (S : List α) (hne : S ≠ []) :
    ∃ mn mx, min S = .ok mn ∧ max S = .ok mx ∧ mn ∈ S ∧ mx ∈ S ∧
      ∀ x ∈ S, mn ≤ x ∧ x ≤ mx := by
  cases S with
  | nil => exact absurd rfl hne
  | cons s l =>
    obtain ⟨hmin_mem, hmin_le⟩ := min_element_loop_spec s l
    obtain ⟨hmax_mem, hmax_ge⟩ := max_element_loop_spec s l
    refine ⟨min_element_loop s l, max_element_loop s l, rfl, rfl, hmin_mem, hmax_mem, ?_⟩
    intro x hx
    exact ⟨hmin_le x hx, hmax_ge x hx⟩

/-- Scenario 1 as an instance of C10: on
`[0.9,0.2,0.1,0.3,0.7,0.4,0.6,0.8,0.5]` the minimum is `0.1` and the maximum
`0.9`. -/
theorem min_max_spec_witness :
    ([9/10, 2/10, 1/10, 3/10, 7/10, 4/10, 6/10, 8/10, 5/10] : List ℚ) ≠ [] ∧
    min ([9/10, 2/10, 1/10, 3/10, 7/10, 4/10, 6/10, 8/10, 5/10] : List ℚ) = .ok (1/10) ∧
    max ([9/10, 2/10, 1/10, 3/10, 7/10, 4/10, 6/10, 8/10, 5/10] : List ℚ) = .ok (9/10) ∧
    ∃ mn mx,
      min ([9/10, 2/10, 1/10, 3/10, 7/10, 4/10, 6/10, 8/10, 5/10] : List ℚ) = .ok mn ∧
      max ([9/10, 2/10, 1/10, 3/10, 7/10, 4/10, 6/10, 8/10, 5/10] : List ℚ) = .ok mx ∧
      mn ∈ ([9/10, 2/10, 1/10, 3/10, 7/10, 4/10, 6/10, 8/10, 5/10] : List ℚ) ∧
      mx ∈ ([9/10, 2/10, 1/10, 3/10, 7/10, 4/10, 6/10, 8/10, 5/10] : List ℚ) ∧
      ∀ x ∈ ([9/10, 2/10, 1/10, 3/10, 7/10, 4/10, 6/10, 8/10, 5/10] : List ℚ),
        mn ≤ x ∧ x ≤ mx :=
  ⟨by simp,
   by norm_num [min, min_element_loop],
   by norm_num [max, max_element_loop],
   min_max_spec _ (by simp)⟩

end extremal

section mean

theorem average_eq (S : List ℚ) (hne : S ≠ []) :
    average S = .ok (S.sum / (S.length : ℚ)) := by
  have hn : S.length ≠ 0 := fun h => hne (List.length_eq_zero.mp h)
  simp [average, hn, List.sum_eq_foldl]

/-- C9: for every non-empty sequence `S`, `average(S)` is the sum of the elements
divided by their number, and `min(S) <= average(S) <= max(S)`. -/
theorem average_spec (S : List ℚ) (hne : S ≠ []) :
    ∃ avg mn mx, average S = .ok avg ∧ avg = S.sum / (S.length : ℚ) ∧
      min S = .ok mn ∧ max S = .ok mx ∧ mn ≤ avg ∧ avg ≤ mx := by
  obtain ⟨mn, mx, hmn, hmx, _, _, hb⟩ := min_max_bounds S hne
  have hn : (0 : ℚ) < (S.length : ℚ) := by exact_mod_cast List.length_pos.mpr hne
  have hlo : (S.length : ℚ) * mn ≤ S.sum := by
    have := List.card_nsmul_le_sum S mn (fun x hx => (hb x hx).1)
    simpa [nsmul_eq_mul] using this
  have hhi : S.sum ≤ (S.length : ℚ) * mx := by
    have := List.sum_le_card_nsmul S mx (fun x hx => (hb x hx).2)
    simpa [nsmul_eq_mul] using this
  refine ⟨S.sum / (S.length : ℚ), mn, mx, average_eq S hne, rfl, hmn, hmx, ?_, ?_⟩
  · rw [le_div_iff₀ hn]
    linarith
  · rw [div_le_iff₀ hn]
    linarith

/-- Scenario 1 as an instance of C9: the mean of
`[0.9,0.2,0.1,0.3,0.7,0.4,0.6,0.8,0.5]` is `0.5`. -/
theorem average_spec_witness :
    ([9/10, 2/10, 1/10, 3/10, 7/10, 4/10, 6/10, 8/10, 5/10] : List ℚ) ≠ [] ∧
    average [9/10, 2/10, 1/10, 3/10, 7/10, 4/10, 6/10, 8/10, 5/10] = .ok (1/2) ∧
    ∃ avg mn mx,
      average [9/10, 2/10, 1/10, 3/10, 7/10, 4/10, 6/10, 8/10, 5/10] = .ok avg ∧
      avg = ([9/10, 2/10, 1/10, 3/10, 7/10, 4/10, 6/10, 8/10, 5/10] : List ℚ).sum /
        (([9/10, 2/10, 1/10, 3/10, 7/10, 4/10, 6/10, 8/10, 5/10] : List ℚ).length : ℚ) ∧
      min ([9/10, 2/10, 1/10, 3/10, 7/10, 4/10, 6/10, 8/10, 5/10] : List ℚ) = .ok mn ∧
      max ([9/10, 2/10, 1/10, 3/10, 7/10, 4/10, 6/10, 8/10, 5/10] : List ℚ) = .ok mx ∧
      mn ≤ avg ∧ avg ≤ mx :=
  ⟨by simp, by norm_num [average], average_spec _ (by simp)⟩

end mean

/-! ## `sortAndCalcStats` -/

section stats_claims

theorem sort_sorted {α : Type} [LinearOrder α] (S : List α) : (sort S).Sorted (· ≤ ·) :=
  List.sorted_insertionSort (· ≤ ·) S

theorem sort_perm {α : Type} [LinearOrder α] (S : List α) : (sort S).Perm S :=
  List.perm_insertionSort (· ≤ ·) S

theorem sort_ne_nil {α : Type} [LinearOrder α] (S : List α) (hne : S ≠ []) :
    sort S ≠ [] := by
  intro h
  have := (sort_perm S).length_eq
  rw [h] at this
  exact hne (List.length_eq_zero.mp this.symm)

end stats_claims

/-! ## `mod` -/

section mod_claims

/-- C6, at the failing input: `mod(2147483646, 2147483647)` computes
`2147483646 + 2147483647`, which exceeds the largest `int`; the wrapped sum is
`-3` and the function returns `-3`, outside `[0, b)`. -/
theorem mod_failing_input :
    mod 2147483646 2147483647 = .ok (-3) ∧ ¬ (0 ≤ (-3 : Int)) ∧
      -(2 : Int) ^ 31 ≤ 2147483646 ∧ (2147483647 : Int) < 2 ^ 31 ∧
      ¬ ((2147483646 : Int).tmod 2147483647 + 2147483647 < 2 ^ 31) := by
  decide

theorem wrap_int_of_range (x : Int) (h1 : -(2 : Int) ^ 31 ≤ x) (h2 : x < 2 ^ 31) :
    wrap_int x = x := by
  unfold wrap_int
  have : (x + 2 ^ 31) % 2 ^ 32 = x + 2 ^ 31 :=
    Int.emod_eq_of_lt (by omega) (by omega)
  omega

theorem tmod_neg_left (a b : Int) : Int.tmod (-a) b = -(Int.tmod a b) := by
  rw [Int.tmod_def, Int.tmod_def, Int.neg_tdiv]
  ring

theorem neg_lt_tmod_of_pos (a b : Int) (hb : 0 < b) : -b < Int.tmod a b := by
  rcases le_or_lt 0 a with ha | ha
  · have := Int.tmod_nonneg b ha
    omega
  · have h1 : Int.tmod a b = -(Int.tmod (-a) b) := by
      rw [tmod_neg_left, neg_neg]
    have h2 := Int.tmod_lt_of_pos (-a) hb
    omega

/-- Whenever the sum `a % b + b` fits an `int`, in particular for every `a ≤ 0`,
`mod(a, b)` with `b > 0` is the Euclidean remainder. -/
theorem mod_euclidean_of_no_overflow (a b : Int) (hb : 0 < b)
    (hsum : Int.tmod a b + b < 2 ^ 31) :
    mod a b = .ok (a % b) ∧ 0 ≤ a % b ∧ a % b < b := by
  have hb0 : b ≠ 0 := ne_of_gt hb
  have hlo : -b < Int.tmod a b := neg_lt_tmod_of_pos a b hb
  have hw : wrap_int (Int.tmod a b + b) = Int.tmod a b + b :=
    wrap_int_of_range _ (by omega) hsum
  refine ⟨?_, Int.emod_nonneg a hb0, Int.emod_lt_of_pos a hb⟩
  unfold mod
  rw [if_neg hb0, hw]
  congr 1
  have h0 : 0 ≤ Int.tmod a b + b := by omega
  rw [Int.tmod_eq_emod h0 (le_of_lt hb)]
  have h1 : Int.tmod a b + b = a + b * (1 - a.tdiv b) := by
    rw [Int.tmod_def]
    ring
  rw [h1, Int.add_mul_emod_self_left]

theorem mod_euclidean_of_no_overflow_witness :
    (0 : Int) < 3 ∧ Int.tmod (-1) 3 + 3 < 2 ^ 31 ∧ mod (-1) 3 = .ok 2 :=
  ⟨by decide, by decide, (mod_euclidean_of_no_overflow (-1) 3 (by decide) (by decide)).1⟩

end mod_claims

/-! ## `val_objs` -/

section val_objs_claims

variable {α : Type} [LinearOrder α]

theorem val_objs_loop_eq_zip (i1 i2 : Fit α) (h : i1.objs.length = i2.objs.length) :
    (List.finRange i1.objs.length).findSome? (val_objs.loop_body i1 i2 h) =
      (i1.objs.zip i2.objs).findSome?
        (fun p => if p.1 < p.2 then some false else if p.1 > p.2 then some true else none) := by
  have h1 : (List.finRange i1.objs.length).findSome? (val_objs.loop_body i1 i2 h) =
      (i1.objs.zip i2.objs).findSome?
        (fun p => if p.1 > p.2 then some true else if p.1 < p.2 then some false else none) :=
    findSome_finRange_eq_zip i1.objs i2.objs h
      (fun x y => if x > y then some true else if x < y then some false else none)
  rw [h1]
  congr 1
  funext p
  rcases lt_trichotomy p.1 p.2 with hlt | heq | hgt
  · simp [hlt, lt_asymm hlt]
  · simp [heq]
  · simp [hgt, lt_asymm hgt]

/-- C7: for every two candidates whose objective vectors have the same non-zero
length, `val_objs()(i1, i2)` returns a value, and that value is `true` exactly
when the value of `i1` is greater than that of `i2`, or the values are equal and
at the first index where the objective vectors differ the objective of `i1` is
the greater one; it is `false` when the value and all objectives are equal. The
call has no polarity argument. -/
theorem val_objs_call_spec (i1 i2 : Fit α) (hlen : i1.objs.length = i2.objs.length)
    (hne : i1.objs.length ≠ 0) :
    ∃ r, val_objs.call i1 i2 = .ok r ∧
      (r = true ↔
        (i2.value < i1.value ∨ (i1.value = i2.value ∧ LexLt i2.objs i1.objs))) ∧
      (i1.value = i2.value → AllEqual i1.objs i2.objs → r = false) := by
  have hne2 : i2.objs.length ≠ 0 := hlen ▸ hne
  rcases lt_trichotomy i1.value i2.value with hv | hv | hv
  · refine ⟨false, ?_, ?_, fun _ _ => rfl⟩
    · simp [val_objs.call, hlen, hne2, hv, lt_asymm hv]
    · simp [lt_asymm hv, ne_of_lt hv]
  · have hcall : val_objs.call i1 i2 = .ok
        (((i1.objs.zip i2.objs).findSome?
          (fun p => if p.1 < p.2 then some false else if p.1 > p.2 then some true
            else none)).getD false) := by
      rw [← val_objs_loop_eq_zip i1 i2 hlen]
      simp [val_objs.call, hlen, hne2, hv]
    rcases lex_trichotomy i1.objs i2.objs with h | ⟨k, hk⟩ | ⟨k, hk⟩
    · refine ⟨false, ?_, ?_, fun _ _ => rfl⟩
      · rw [hcall, findSome_zip_of_allEqual _ _ _ _ h]
        rfl
      · simp [hv, AllEqual_not_lexLt (AllEqual_symm h)]
    · refine ⟨false, ?_, ?_, fun _ _ => rfl⟩
      · rw [hcall, findSome_zip_of_firstDiffLt _ _ _ _ k hk]
        rfl
      · have : ¬ LexLt i2.objs i1.objs := LexLt_asymm ⟨k, hk⟩
        simp [hv, this]
    · refine ⟨true, ?_, ?_, fun _ he => absurd he (FirstDiffLt_not_allEqual_symm hk)⟩
      · rw [hcall, findSome_zip_of_firstDiffGt _ _ _ _ k hk]
        rfl
      · have : LexLt i2.objs i1.objs := ⟨k, hk⟩
        simp [hv, this]
  · refine ⟨true, ?_, ?_, fun he => absurd he (ne_of_gt hv)⟩
    · simp [val_objs.call, hlen, hne2, hv]
    · simp [hv]

/-- An instance of C7: with equal values, `[4,4]` comes before `[3,5]`, and with
a greater value a candidate comes first whatever its objectives. -/
theorem val_objs_call_spec_witness :
    (([4, 4] : List Int).length = ([3, 5] : List Int).length) ∧
    ([4, 4] : List Int).length ≠ 0 ∧
    val_objs.call (Fit.mk (1 : Int) [4, 4] 0 0) (Fit.mk 1 [3, 5] 0 0) = .ok true ∧
    val_objs.call (Fit.mk (1 : Int) [3, 5] 0 0) (Fit.mk 1 [4, 4] 0 0) = .ok false ∧
    val_objs.call (Fit.mk (2 : Int) [3, 5] 0 0) (Fit.mk 1 [4, 4] 0 0) = .ok true ∧
    val_objs.call (Fit.mk (1 : Int) [3, 5] 0 0) (Fit.mk 1 [3, 5] 0 0) = .ok false ∧
    ∃ r, val_objs.call (Fit.mk (1 : Int) [4, 4] 0 0) (Fit.mk 1 [3, 5] 0 0) = .ok r ∧
      (r = true ↔
        ((1 : Int) < 1 ∨ ((1 : Int) = 1 ∧ LexLt ([3, 5] : List Int) [4, 4]))) ∧
      ((1 : Int) = 1 → AllEqual ([4, 4] : List Int) [3, 5] → r = false) :=
  ⟨by decide, by decide, by decide, by decide, by decide, by decide,
    val_objs_call_spec (Fit.mk (1 : Int) [4, 4] 0 0) (Fit.mk 1 [3, 5] 0 0)
      (by decide) (by decide)⟩

end val_objs_claims

/-! ## `gatherBest` -/

section gather

theorem foldl_push_eq_append_map {β γ : Type} (f : β → γ) (l : List β) (r : List γ) :
    l.foldl (fun r i => r ++ [f i]) r = r ++ l.map f := by
  induction l generalizing r with
  | nil => simp
  | cons x l ih => simp [ih]

/-- The list `takeWhile p l` is the longest initial segment of `l` on which `p`
holds. -/
theorem takeWhile_longest {β : Type} (p : β → Bool) (l : List β) :
    ∃ m, m ≤ l.length ∧ l.takeWhile p = l.take m ∧
      (∀ i, ∀ (hi : i < l.length), i < m → p l[i] = true) ∧
      (∀ hm : m < l.length, p l[m] = false) := by
  induction l with
  | nil => exact ⟨0, by simp⟩
  | cons x l ih =>
    obtain ⟨m, hm, htk, hall, hstop⟩ := ih
    by_cases hx : p x = true
    · refine ⟨m + 1, by simpa using hm, by simp [List.takeWhile_cons, hx, htk], ?_, ?_⟩
      · intro i hi him
        cases i with
        | zero => simpa using hx
        | succ i => simpa using hall i (by simpa using hi) (by omega)
      · intro h
        simpa using hstop (by simpa using h)
    · refine ⟨0, by simp, by simp [List.takeWhile_cons, hx], ?_, ?_⟩
      · intro i _ hi
        exact absurd hi (Nat.not_lt_zero i)
      · intro _
        simpa using hx

end gather

section gather_eval

variable {α : Type} [DecidableEq α]

theorem gatherBest_nil (R : List (Fit α)) : gatherBest [] R = R := rfl

theorem gatherBest_cons (c0 : Fit α) (rest R : List (Fit α)) :
    gatherBest (c0 :: rest) R =
      R ++ (c0 :: rest).takeWhile (fun x => decide (x.value = c0.value)) := by
  unfold gatherBest
  rw [foldl_push_eq_append_map]
  congr 1
  have h := List.takeWhile_map (c0 :: rest).get (fun x => decide (x.value = c0.value))
    (List.finRange (c0 :: rest).length)
  rw [List.finRange_map_get] at h
  rw [h]
  rfl

end gather_eval

section gather_claims

variable {α : Type} [DecidableEq α]

/-- C8: `gatherBest(C, R)` makes `R` its previous contents followed by the
longest initial segment of `C` in which every element has the value of `C[0]`
(`C` itself is only read). With `R` empty on entry the result is that segment:
it is empty exactly when `C` is empty, it starts with `C[0]`, and nothing at or
after an index whose value differs from that of `C[0]` is included. -/
theorem gatherBest_spec (C R : List (Fit α)) :
    ∃ m, m ≤ C.length ∧
      gatherBest C R = R ++ C.take m ∧
      (∀ i, ∀ (hi : i < C.length) (h0 : 0 < C.length), i < m → C[i].value = C[0].value) ∧
      (∀ m', m' ≤ C.length →
        (∀ i, ∀ (hi : i < C.length) (h0 : 0 < C.length), i < m' → C[i].value = C[0].value) →
        m' ≤ m) ∧
      gatherBest C [] = C.take m ∧
      (gatherBest C [] = [] ↔ C = []) ∧
      (gatherBest C []).head? = C.head? ∧
      (∀ i, ∀ (hi : i < C.length) (h0 : 0 < C.length), C[i].value ≠ C[0].value →
        (gatherBest C []).length ≤ i) := by
  cases C with
  | nil =>
    refine ⟨0, le_rfl, by simp [gatherBest_nil], ?_, ?_, by simp [gatherBest_nil],
      by simp [gatherBest_nil], by simp [gatherBest_nil], ?_⟩
    · intro i hi
      simp at hi
    · intro m' hm' _
      simpa using hm'
    · intro i hi
      simp at hi
  | cons c0 rest =>
    obtain ⟨m, hm, htk, hall, hstop⟩ :=
      takeWhile_longest (fun x : Fit α => decide (x.value = c0.value)) (c0 :: rest)
    have hmpos : 0 < m := by
      by_contra h
      have hm0 : m = 0 := by omega
      subst hm0
      have := hstop (by simp)
      simp at this
    have hgb : ∀ R : List (Fit α), gatherBest (c0 :: rest) R = R ++ (c0 :: rest).take m := by
      intro R
      rw [gatherBest_cons, htk]
    have hlen : (gatherBest (c0 :: rest) []).length = m := by
      rw [hgb, List.nil_append, List.length_take]
      exact Nat.min_eq_left hm
    refine ⟨m, hm, hgb R, ?_, ?_, by simpa using hgb [], ?_, ?_, ?_⟩
    · intro i hi h0 him
      simpa using hall i hi him
    · intro m' hm' hall'
      by_contra hlt
      have hmlt : m < (c0 :: rest).length := by omega
      have h1 := hall' m hmlt (by simp) (by omega)
      have h2 := hstop hmlt
      simp at h1 h2
      exact h2 h1
    · constructor
      · intro h
        have := hlen
        rw [h] at this
        simp at this
        omega
      · intro h
        simp at h
    · rw [hgb, List.nil_append]
      cases m with
      | zero => exact absurd hmpos (Nat.lt_irrefl 0)
      | succ m => simp
    · intro i hi h0 hdiff
      rw [hlen]
      by_contra hlt
      exact hdiff (by simpa using hall i hi (by omega))

end gather_claims

/-! ## `sort`, `l1diff`, `mult` -/

section sort_claims

/-- C11: for every sequence `S` the comparator-less `sort(S)` leaves a
non-decreasing sequence that is a permutation of `S`, and sorting the result
again leaves it unchanged; sorting `[0.9,0.2,0.1,0.3,0.7,0.4,0.6,0.8,0.5]`
gives `[0.1, 0.2, ..., 0.9]`. -/
theorem sort_spec {α : Type} [LinearOrder α] (S : List α) :
    (sort S).Sorted (· ≤ ·) ∧ (sort S).Perm S ∧ sort (sort S) = sort S ∧
    sort ([9/10, 2/10, 1/10, 3/10, 7/10, 4/10, 6/10, 8/10, 5/10] : List ℚ) =
      [1/10, 2/10, 3/10, 4/10, 5/10, 6/10, 7/10, 8/10, 9/10] := by
  refine ⟨sort_sorted S, sort_perm S, ?_, ?_⟩
  · exact List.Sorted.insertionSort_eq (sort_sorted S)
  · norm_num [sort, List.insertionSort, List.orderedInsert]

end sort_claims

section l1diff_claims

theorem foldl_abs_zip (a b : List ℚ) (init : ℚ) :
    (a.zip b).foldl (fun r p => r + |p.1 - p.2|) init =
      init + (List.zipWith (fun x y => |x - y|) a b).sum := by
  induction a generalizing b init with
  | nil => simp
  | cons x a ih =>
    cases b with
    | nil => simp
    | cons y b =>
      simp only [List.zip_cons_cons, List.foldl_cons, List.zipWith_cons_cons, List.sum_cons]
      rw [ih]
      ring

theorem l1diff_loop_eq (A B : List ℚ) (h : A.length = B.length) :
    (List.finRange A.length).foldl
        (fun result i => result + |A.get i - B.get (i.cast h)|) 0 =
      (List.zipWith (fun x y => |x - y|) A B).sum := by
  have h1 := foldl_finRange_eq_zip A B h (fun (r : ℚ) x y => r + |x - y|) 0
  rw [h1, foldl_abs_zip, zero_add]

/-- C12: for two sequences `A` and `B` of the same non-zero length `n`,
`l1diff(A, B)` passes its length assertion and returns the sum of the
`|A[i] - B[i]|` divided by `n`; for sequences of different lengths the length
assertion fails. -/
theorem l1diff_spec (A B : List ℚ) (hlen : A.length = B.length) (hne : A.length ≠ 0) :
    l1diff A B = .ok ((List.zipWith (fun x y => |x - y|) A B).sum / (A.length : ℚ)) ∧
    (List.zipWith (fun x y => |x - y|) A B).length = A.length ∧
    (∀ (i : Nat) (ha : i < A.length) (hb : i < B.length)
        (hz : i < (List.zipWith (fun x y => |x - y|) A B).length),
      (List.zipWith (fun x y => |x - y|) A B)[i] = |A[i] - B[i]|) ∧
    (∀ A2 B2 : List ℚ, A2.length ≠ B2.length → l1diff A2 B2 = .fault .assertion) := by
  refine ⟨?_, by simp [hlen], ?_, ?_⟩
  · unfold l1diff
    rw [dif_pos hlen]
    simp only [l1diff_loop_eq A B hlen, if_neg hne]
  · intro i ha hb hz
    simp
  · intro A2 B2 h
    unfold l1diff
    rw [dif_neg h]

/-- Scenario 2 as an instance of C12: the mean absolute difference of
`[0.1, ..., 0.9]` and `[0.9,0.2,0.1,0.3,0.7,0.4,0.6,0.8,0.5]` is `2/9`, and a
call with lengths 1 and 2 fails its assertion. -/
theorem l1diff_spec_witness :
    ([1/10, 2/10, 3/10, 4/10, 5/10, 6/10, 7/10, 8/10, 9/10] : List ℚ).length =
      ([9/10, 2/10, 1/10, 3/10, 7/10, 4/10, 6/10, 8/10, 5/10] : List ℚ).length ∧
    ([1/10, 2/10, 3/10, 4/10, 5/10, 6/10, 7/10, 8/10, 9/10] : List ℚ).length ≠ 0 ∧
    l1diff [1/10, 2/10, 3/10, 4/10, 5/10, 6/10, 7/10, 8/10, 9/10]
      [9/10, 2/10, 1/10, 3/10, 7/10, 4/10, 6/10, 8/10, 5/10] = .ok (2/9) ∧
    l1diff [1] [1, 2] = .fault .assertion := by
  have h := l1diff_spec [1/10, 2/10, 3/10, 4/10, 5/10, 6/10, 7/10, 8/10, 9/10]
    [9/10, 2/10, 1/10, 3/10, 7/10, 4/10, 6/10, 8/10, 5/10] (by simp) (by simp)
  refine ⟨by simp, by simp, ?_, h.2.2.2 [1] [1, 2] (by simp)⟩
  rw [h.1]
  norm_num [abs_of_nonneg, abs_of_nonpos]

end l1diff_claims

section mult_claims

theorem mult_eq_prod {α : Type} [Monoid α] (S : List α) : mult S = S.prod := by
  rw [List.prod_eq_foldl]
  rfl

/-- C13: for every sequence `S`, `mult(S)` is the product of all elements of
`S`, and `mult` of the empty sequence is `1`; `multiply(x, y)` is `x*y`;
`mult([0.1,0.2,...,0.9]) = 362880/10^9` and `multiply(3, 4) = 12`. -/
theorem mult_spec {α : Type} [Monoid α] (S : List α) (x y : α) :
    mult S = S.prod ∧ mult ([] : List α) = 1 ∧ multiply x y = x * y ∧
    mult ([1/10, 2/10, 3/10, 4/10, 5/10, 6/10, 7/10, 8/10, 9/10] : List ℚ) =
      362880 / 10 ^ 9 ∧
    multiply (3 : ℚ) 4 = 12 := by
  refine ⟨mult_eq_prod S, rfl, rfl, ?_, ?_⟩
  · rw [mult_eq_prod]
    norm_num
  · norm_num [multiply]

end mult_claims

/-! ## The polarity flags -/

section polarity_claims

theorem compare_invoke_flags (self : compare) (m : compare.method) :
    ((self.invoke m)._smaller = true ∧ (self.invoke m)._greater = false ∨
      (self.invoke m)._smaller = false ∧ (self.invoke m)._greater = true) ∧
    (self.invoke m)._equal = false := by
  cases m <;> simp [compare.invoke, compare.ascending, compare.descending,
    compare.greaterThan, compare.smallerThan]

theorem compare_new_flags (order : sort_order) :
    ((compare.new order)._smaller = true ∧ (compare.new order)._greater = false ∨
      (compare.new order)._smaller = false ∧ (compare.new order)._greater = true) ∧
    (compare.new order)._equal = false := by
  cases order <;> simp [compare.new, compare.ascending, compare.descending,
    compare.greaterThan, compare.smallerThan]

theorem compare_run_flags (self : compare)
    (h : (self._smaller = true ∧ self._greater = false ∨
        self._smaller = false ∧ self._greater = true) ∧ self._equal = false)
    (calls : List compare.method) :
    ((self.run calls)._smaller = true ∧ (self.run calls)._greater = false ∨
      (self.run calls)._smaller = false ∧ (self.run calls)._greater = true) ∧
    (self.run calls)._equal = false := by
  induction calls generalizing self with
  | nil => exact h
  | cons m calls ih => exact ih (self.invoke m) (compare_invoke_flags self m)

/-- C14: after construction of `compare` with either direction or the default,
and after any sequence of calls to `ascending()`, `descending()`,
`greaterThan()` and `smallerThan()`, exactly one of `_smaller` and `_greater` is
true and `_equal` is false. The default, `order_ascending`, `ascending()` and
`smallerThan()` give `_smaller = true`; `order_descending`, `descending()` and
`greaterThan()` give `_greater = true`. -/
theorem compare_polarity_invariant (order : sort_order) (calls : List compare.method)
    (self : compare) :
    (((compare.new order).run calls)._smaller = true ∧
        ((compare.new order).run calls)._greater = false ∨
      ((compare.new order).run calls)._smaller = false ∧
        ((compare.new order).run calls)._greater = true) ∧
    ((compare.new order).run calls)._equal = false ∧
    ((compare.default.run calls)._smaller = true ∧
        (compare.default.run calls)._greater = false ∨
      (compare.default.run calls)._smaller = false ∧
        (compare.default.run calls)._greater = true) ∧
    (compare.default.run calls)._equal = false ∧
    compare.default = ⟨true, false, false⟩ ∧
    compare.new .order_ascending = ⟨true, false, false⟩ ∧
    self.ascending = ⟨true, false, false⟩ ∧
    self.smallerThan = ⟨true, false, false⟩ ∧
    compare.new .order_descending = ⟨false, true, false⟩ ∧
    self.descending = ⟨false, true, false⟩ ∧
    self.greaterThan = ⟨false, true, false⟩ := by
  obtain ⟨h1, h2⟩ := compare_run_flags (compare.new order) (compare_new_flags order) calls
  obtain ⟨h3, h4⟩ := compare_run_flags compare.default
    (compare_new_flags .order_ascending) calls
  exact ⟨h1, h2, h3, h4, rfl, rfl, rfl, rfl, rfl, rfl, rfl⟩

end polarity_claims

/-! ## Empty sequences -/

section empty_claims

theorem getPercentile_nil (p : ℚ) : getPercentile [] p = .fault .out_of_range := by
  simp only [getPercentile]
  split_ifs
  · rfl
  · rfl

/-- C15, as stated, fails at the empty sequence: none of `min`, `max`, `average`
and `getPercentile` ends in a failed contract check there. -/
theorem empty_input_contract_check_counterexample :
    ¬ (min ([] : List ℚ) = .fault .assertion ∨ max ([] : List ℚ) = .fault .assertion ∨
      average [] = .fault .assertion ∨ getPercentile [] (1/2) = .fault .assertion) := by
  have h1 : min ([] : List ℚ) = .fault .out_of_range := rfl
  have h2 : max ([] : List ℚ) = .fault .out_of_range := rfl
  have h3 : average [] = .fault .division_by_zero := rfl
  have h4 : getPercentile [] (1/2) = .fault .out_of_range := getPercentile_nil (1/2)
  rw [h1, h2, h3, h4]
  simp

/-- C15, amended: on an empty sequence `min`, `max`, `average` and
`getPercentile` yield no result value, and none of them through a contract
check, which none of them contains: `min`, `max` and `getPercentile` read
outside the container, `average` divides zero by the element count zero. -/
theorem empty_input_no_value {α : Type} [LinearOrder α] (p : ℚ) :
    min ([] : List α) = .fault .out_of_range ∧
    max ([] : List α) = .fault .out_of_range ∧
    average [] = .fault .division_by_zero ∧
    getPercentile [] p = .fault .out_of_range := by
  exact ⟨rfl, rfl, rfl, getPercentile_nil p⟩

end empty_claims

/-! ## The fallback loop of `pareto_objs::operator()` -/

section fallback_claims

variable {α : Type} [LinearOrder α]

/-- C16: for every polarity and every two candidates with objective vectors of
equal non-zero length, whenever none of the three tests after the first loop
returns, some index has the objective of `i1` strictly smaller and some index
has it strictly greater, and the fallback loop returns from inside at the first
differing index: the final `return this->_equal` is not reached. -/
theorem pareto_objs_final_return_unreachable (self : pareto_objs) (i1 i2 : Fit α)
    (hlen : i1.objs.length = i2.objs.length) (hne : i1.objs.length ≠ 0) :
    ((pareto_objs.dominance_loop i1 i2 hlen).i1_equal_to_i2 = false →
      (pareto_objs.dominance_loop i1 i2 hlen).i1_dominates_i2 = false →
      (pareto_objs.dominance_loop i1 i2 hlen).i2_dominates_i1 = false →
      NonDominated i1.objs i2.objs ∧
      ∃ k, (FirstDiffLt i1.objs i2.objs k ∧
              pareto_objs.lexical_loop self i1 i2 hlen = some self.base._smaller) ∨
           (FirstDiffLt i2.objs i1.objs k ∧
              pareto_objs.lexical_loop self i1 i2 hlen = some self.base._greater)) ∧
    ¬ ((pareto_objs.dominance_loop i1 i2 hlen).i1_equal_to_i2 = false ∧
       (pareto_objs.dominance_loop i1 i2 hlen).i1_dominates_i2 = false ∧
       (pareto_objs.dominance_loop i1 i2 hlen).i2_dominates_i1 = false ∧
       pareto_objs.lexical_loop self i1 i2 hlen = none) ∧
    (∃ r, self.call i1 i2 = .ok r) := by
  obtain ⟨hE, hD1, hD2⟩ := pareto_objs_dominance_loop_spec i1 i2 hlen
  have key : (pareto_objs.dominance_loop i1 i2 hlen).i1_equal_to_i2 = false →
      (pareto_objs.dominance_loop i1 i2 hlen).i1_dominates_i2 = false →
      (pareto_objs.dominance_loop i1 i2 hlen).i2_dominates_i1 = false →
      NonDominated i1.objs i2.objs ∧
      ∃ k, (FirstDiffLt i1.objs i2.objs k ∧
              pareto_objs.lexical_loop self i1 i2 hlen = some self.base._smaller) ∨
           (FirstDiffLt i2.objs i1.objs k ∧
              pareto_objs.lexical_loop self i1 i2 hlen = some self.base._greater) := by
    intro he hd1 hd2
    have hnE : ¬ AllEqual i1.objs i2.objs := fun h => by
      rw [hE.mpr h] at he
      cases he
    have hn1 : ¬ ∀ k, ∀ (ha : k < i1.objs.length) (hb : k < i2.objs.length),
        i2.objs[k] ≤ i1.objs[k] := fun h => by
      rw [hD1.mpr h] at hd1
      cases hd1
    have hn2 : ¬ ∀ k, ∀ (ha : k < i1.objs.length) (hb : k < i2.objs.length),
        i1.objs[k] ≤ i2.objs[k] := fun h => by
      rw [hD2.mpr h] at hd2
      cases hd2
    refine ⟨⟨?_, ?_⟩, ?_⟩
    · by_contra hcon
      exact hn1 (fun k ha hb => not_lt.mp (fun hlt => hcon ⟨k, ha, hb, hlt⟩))
    · by_contra hcon
      exact hn2 (fun k ha hb => not_lt.mp (fun hlt => hcon ⟨k, ha, hb, hlt⟩))
    · rw [pareto_objs_lexical_loop_eq_zip]
      rcases lex_trichotomy i1.objs i2.objs with h | ⟨k, hk⟩ | ⟨k, hk⟩
      · exact absurd h hnE
      · exact ⟨k, Or.inl ⟨hk, findSome_zip_of_firstDiffLt _ _ _ _ k hk⟩⟩
      · exact ⟨k, Or.inr ⟨hk, findSome_zip_of_firstDiffGt _ _ _ _ k hk⟩⟩
  refine ⟨key, ?_, ?_⟩
  · rintro ⟨he, hd1, hd2, hnone⟩
    obtain ⟨_, k, h | h⟩ := key he hd1 hd2
    · rw [h.2] at hnone
      cases hnone
    · rw [h.2] at hnone
      cases hnone
  · rw [pareto_objs_call_eq self i1 i2 hlen hne]
    split_ifs <;> exact ⟨_, rfl⟩

/-- An instance of C16: for `[3,5]` and `[4,4]` all three flags are false after
the first loop and the fallback loop returns the smaller outcome from index 0. -/
theorem pareto_objs_final_return_unreachable_witness :
    (([3, 5] : List Int).length = ([4, 4] : List Int).length) ∧
    ([3, 5] : List Int).length ≠ 0 ∧
    pareto_objs.dominance_loop (Fit.mk (0 : Int) [3, 5] 0 0) (Fit.mk 0 [4, 4] 0 0) rfl =
      ⟨false, false, false⟩ ∧
    pareto_objs.lexical_loop pareto_objs.new (Fit.mk (0 : Int) [3, 5] 0 0)
      (Fit.mk 0 [4, 4] 0 0) rfl = some true ∧
    ¬ ((pareto_objs.dominance_loop (Fit.mk (0 : Int) [3, 5] 0 0)
          (Fit.mk 0 [4, 4] 0 0) rfl).i1_equal_to_i2 = false ∧
       (pareto_objs.dominance_loop (Fit.mk (0 : Int) [3, 5] 0 0)
          (Fit.mk 0 [4, 4] 0 0) rfl).i1_dominates_i2 = false ∧
       (pareto_objs.dominance_loop (Fit.mk (0 : Int) [3, 5] 0 0)
          (Fit.mk 0 [4, 4] 0 0) rfl).i2_dominates_i1 = false ∧
       pareto_objs.lexical_loop pareto_objs.new (Fit.mk (0 : Int) [3, 5] 0 0)
         (Fit.mk 0 [4, 4] 0 0) rfl = none) :=
  ⟨by decide, by decide, by decide, by decide,
    (pareto_objs_final_return_unreachable pareto_objs.new (Fit.mk (0 : Int) [3, 5] 0 0)
      (Fit.mk 0 [4, 4] 0 0) rfl (by decide)).2.1⟩

end fallback_claims

/-! ## `pareto_objs` against the plain lexicographic comparison -/

section refinement_claims

variable {α : Type} [LinearOrder α]

theorem plain_lexicographic_eq_findSome (c : compare) (a b : List α) :
    plain_lexicographic c a b =
      ((a.zip b).findSome?
        (fun p => if p.1 < p.2 then some c._smaller
          else if p.1 > p.2 then some c._greater else none)).getD c._equal := by
  induction a generalizing b with
  | nil => simp [plain_lexicographic]
  | cons x a ih =>
    cases b with
    | nil => simp [plain_lexicographic]
    | cons y b =>
      rcases lt_trichotomy x y with h | h | h
      · simp [plain_lexicographic, h]
      · subst h
        simp [plain_lexicographic, ih]
      · simp [plain_lexicographic, h, lt_asymm h, ih]

theorem paretoDominates_lexLt (a b : List α) (h : ParetoDominates a b) : LexLt b a := by
  rcases lex_trichotomy a b with he | ⟨k, hk⟩ | hlt
  · obtain ⟨_, k, ha, hb, hlt⟩ := h
    exact absurd (he k ha hb) (ne_of_gt hlt)
  · obtain ⟨_, ha, hb, hlt⟩ := hk
    exact absurd (h.1 k ha hb) (not_le.mpr hlt)
  · exact hlt

/-- C17: for every polarity and every two candidates whose objective vectors have
the same non-zero length, `pareto_objs::operator()` returns what the plain
lexicographic comparison of the two vectors returns; a vector that
Pareto-dominates another is lexicographically greater, so the dominance pass
does not change the result. -/
theorem pareto_objs_call_eq_plain_lexicographic (self : pareto_objs) (i1 i2 : Fit α)
    (hlen : i1.objs.length = i2.objs.length) (hne : i1.objs.length ≠ 0) :
    self.call i1 i2 = .ok (plain_lexicographic self.base i1.objs i2.objs) ∧
    self.call i1 i2 = .ok ((pareto_objs.lexical_loop self i1 i2 hlen).getD self.base._equal) ∧
    (ParetoDominates i1.objs i2.objs → LexLt i2.objs i1.objs) ∧
    (ParetoDominates i2.objs i1.objs → LexLt i1.objs i2.objs) := by
  obtain ⟨h1, h2, h3⟩ := pareto_objs_call_lexicographic self i1 i2 hlen hne
  have hplain : self.call i1 i2 = .ok (plain_lexicographic self.base i1.objs i2.objs) := by
    rw [plain_lexicographic_eq_findSome]
    rcases lex_trichotomy i1.objs i2.objs with h | ⟨k, hk⟩ | ⟨k, hk⟩
    · rw [h1 h, findSome_zip_of_allEqual _ _ _ _ h]
      rfl
    · rw [h2 ⟨k, hk⟩, findSome_zip_of_firstDiffLt _ _ _ _ k hk]
      rfl
    · rw [h3 ⟨k, hk⟩, findSome_zip_of_firstDiffGt _ _ _ _ k hk]
      rfl
  refine ⟨hplain, ?_, paretoDominates_lexLt _ _, paretoDominates_lexLt _ _⟩
  rw [hplain, plain_lexicographic_eq_findSome, pareto_objs_lexical_loop_eq_zip]

/-- An instance of C17: `[5,1,7]` Pareto-dominates `[5,1,2]`; the ascending
comparator and the plain lexicographic comparison both give `false` for this
pair and `true` for the swapped pair. -/
theorem pareto_objs_call_eq_plain_lexicographic_witness :
    (([5, 1, 7] : List Int).length = ([5, 1, 2] : List Int).length) ∧
    ([5, 1, 7] : List Int).length ≠ 0 ∧
    ParetoDominates ([5, 1, 7] : List Int) [5, 1, 2] ∧
    plain_lexicographic pareto_objs.new.base ([5, 1, 7] : List Int) [5, 1, 2] = false ∧
    plain_lexicographic pareto_objs.new.base ([5, 1, 2] : List Int) [5, 1, 7] = true ∧
    pareto_objs.new.call (Fit.mk (0 : Int) [5, 1, 7] 0 0) (Fit.mk 0 [5, 1, 2] 0 0) =
      .ok (plain_lexicographic pareto_objs.new.base ([5, 1, 7] : List Int) [5, 1, 2]) ∧
    pareto_objs.new.call (Fit.mk (0 : Int) [5, 1, 2] 0 0) (Fit.mk 0 [5, 1, 7] 0 0) =
      .ok (plain_lexicographic pareto_objs.new.base ([5, 1, 2] : List Int) [5, 1, 7]) :=
  ⟨by decide, by decide, by decide, by decide, by decide,
    (pareto_objs_call_eq_plain_lexicographic pareto_objs.new (Fit.mk (0 : Int) [5, 1, 7] 0 0)
      (Fit.mk 0 [5, 1, 2] 0 0) (by decide) (by decide)).1,
    (pareto_objs_call_eq_plain_lexicographic pareto_objs.new (Fit.mk (0 : Int) [5, 1, 2] 0 0)
      (Fit.mk 0 [5, 1, 7] 0 0) (by decide) (by decide)).1⟩

end refinement_claims

/-! ## Interpolation in `getPercentile` -/

section interpolation_claims

/-- On a two-element container and `0 < p < 1` the indices are `0` and `1`, and
the element at index `0` is weighted by `p`, the one at index `1` by `1 - p`. -/
theorem getPercentile_pair (s0 s1 p : ℚ) (hp0 : 0 < p) (hp1 : p < 1) :
    getPercentile [s0, s1] p = .ok (s0 * p + s1 * (1 - p)) := by
  have hidx : (((([s0, s1] : List ℚ).length : ℚ)) - 1) * p = p := by
    norm_num
  have hfl : ⌊p⌋ = 0 := Int.floor_eq_zero_iff.mpr ⟨le_of_lt hp0, hp1⟩
  have hce : ⌈p⌉ = 1 := Int.ceil_eq_iff.mpr ⟨by simpa using hp0, by simpa using le_of_lt hp1⟩
  obtain ⟨_, _, hval⟩ := getPercentile_eq [s0, s1] p (by simp) (le_of_lt hp0) (le_of_lt hp1)
  rw [hval]
  simp only [hidx, hfl, hce]
  simp

/-- The value of `sortAndCalcStats` on a non-empty container, field by field. -/
theorem sortAndCalcStats_eq (S : List ℚ) (hne : S ≠ []) (med fq tq : ℚ)
    (hmed : getPercentile (sort S) (1/2) = .ok med)
    (hfq : getPercentile (sort S) (1/4) = .ok fq)
    (htq : getPercentile (sort S) (3/4) = .ok tq) :
    sortAndCalcStats S = .ok (sort S,
      { min := (sort S).head (sort_ne_nil S hne), max := (sort S).getLast (sort_ne_nil S hne),
        avg := S.sum / (S.length : ℚ), median := med, first_q := fq, third_q := tq }) := by
  have hne2 : sort S ≠ [] := sort_ne_nil S hne
  have hn : 0 < (sort S).length := List.length_pos.mpr hne2
  have hn0 : ¬ (sort S).length = 0 := Nat.pos_iff_ne_zero.mp hn
  have havg : average (sort S) = .ok (S.sum / (S.length : ℚ)) := by
    rw [average_eq (sort S) hne2, (sort_perm S).sum_eq, (sort_perm S).length_eq]
  unfold sortAndCalcStats
  simp only [Res_read_of_lt (sort S) 0 hn, if_neg hn0,
    Res_read_of_lt (sort S) ((sort S).length - 1) (Nat.sub_lt hn Nat.one_pos),
    havg, hmed, hfq, htq, Res_ok_bind, Res_pure_eq]
  simp [List.head_eq_getElem, List.getLast_eq_getElem]

/-- C18: `getPercentile` is not monotone in `p`: on the ascending sequence
`[0, 1]` the values at `0.25`, `0.5`, `0.75` are `0.75 > 0.5 > 0.25`, and
`sortAndCalcStats([0, 1])` returns a record with `first_q > median > third_q`;
the lower neighbour is weighted by the fraction and the upper neighbour by one
minus the fraction. -/
theorem getPercentile_not_monotone :
    ([0, 1] : List ℚ).Sorted (· ≤ ·) ∧
    getPercentile [0, 1] (1/4) = .ok (3/4) ∧
    getPercentile [0, 1] (1/2) = .ok (1/2) ∧
    getPercentile [0, 1] (3/4) = .ok (1/4) ∧
    (3/4 : ℚ) > 1/2 ∧ (1/2 : ℚ) > 1/4 ∧
    getPercentile [0, 1] (1/4) = .ok (0 * (1/4) + 1 * (1 - 1/4)) ∧
    sortAndCalcStats [0, 1] =
      .ok ([0, 1], { min := 0, max := 1, avg := 1/2, median := 1/2,
                     first_q := 3/4, third_q := 1/4 }) ∧
    ∃ S : List ℚ, ∃ S2 : List ℚ, ∃ st : stats,
      sortAndCalcStats S = .ok (S2, st) ∧ st.first_q > st.median ∧ st.median > st.third_q := by
  have h1 : getPercentile [0, 1] (1/4) = .ok (3/4) := by
    rw [getPercentile_pair 0 1 (1/4) (by norm_num) (by norm_num)]
    norm_num
  have h2 : getPercentile [0, 1] (1/2) = .ok (1/2) := by
    rw [getPercentile_pair 0 1 (1/2) (by norm_num) (by norm_num)]
    norm_num
  have h3 : getPercentile [0, 1] (3/4) = .ok (1/4) := by
    rw [getPercentile_pair 0 1 (3/4) (by norm_num) (by norm_num)]
    norm_num
  have hsort : sort ([0, 1] : List ℚ) = [0, 1] := by
    norm_num [sort, List.insertionSort, List.orderedInsert]
  have hstats : sortAndCalcStats [0, 1] =
      .ok ([0, 1], { min := 0, max := 1, avg := 1/2, median := 1/2,
                     first_q := 3/4, third_q := 1/4 }) := by
    rw [sortAndCalcStats_eq [0, 1] (by simp) (1/2) (3/4) (1/4)
      (by rw [hsort]; exact h2) (by rw [hsort]; exact h1) (by rw [hsort]; exact h3)]
    simp only [hsort]
    norm_num
  refine ⟨by simp, h1, h2, h3, by norm_num, by norm_num, ?_, hstats, ?_⟩
  · rw [getPercentile_pair 0 1 (1/4) (by norm_num) (by norm_num)]
  · exact ⟨[0, 1], _, _, hstats, by norm_num, by norm_num⟩

end interpolation_claims

/-! ## Bounds on `getPercentile` -/

section bounds_claims

/-- A value `x * r + y * (1 - r)` with `0 ≤ r ≤ 1` lies between `x` and `y`. -/
theorem weighted_between (x y r : ℚ) (hr0 : 0 ≤ r) (hr1 : r ≤ 1) :
    (x ≤ x * r + y * (1 - r) ∧ x * r + y * (1 - r) ≤ y) ∨
      (y ≤ x * r + y * (1 - r) ∧ x * r + y * (1 - r) ≤ x) := by
  rcases le_total x y with h | h
  · left
    constructor <;> nlinarith
  · right
    constructor <;> nlinarith

theorem sorted_head_le_getElem (S : List ℚ) (hs : S.Sorted (· ≤ ·)) (hne : S ≠ [])
    (i : Nat) (hi : i < S.length) : S.head hne ≤ S[i] := by
  have h0 : 0 < S.length := List.length_pos.mpr hne
  have := hs.rel_get_of_le (a := ⟨0, h0⟩) (b := ⟨i, hi⟩) (Nat.zero_le i)
  simpa [List.head_eq_getElem] using this

theorem sorted_getElem_le_getLast (S : List ℚ) (hs : S.Sorted (· ≤ ·)) (hne : S ≠ [])
    (i : Nat) (hi : i < S.length) : S[i] ≤ S.getLast hne := by
  have h0 : 0 < S.length := List.length_pos.mpr hne
  have := hs.rel_get_of_le (a := ⟨i, hi⟩) (b := ⟨S.length - 1, Nat.sub_lt h0 Nat.one_pos⟩)
    (by
      show i ≤ S.length - 1
      omega)
  simpa [List.getLast_eq_getElem] using this

/-- The value of `getPercentile` for `0 ≤ p ≤ 1` lies between the two elements
it reads, and on a sorted container between the first and the last element. -/
theorem getPercentile_between (S : List ℚ) (p : ℚ) (hne : S ≠ []) (hp0 : 0 ≤ p)
    (hp1 : p ≤ 1) :
    ∃ (hlo : ⌊((S.length : ℚ) - 1) * p⌋.toNat < S.length)
      (hhi : ⌈((S.length : ℚ) - 1) * p⌉.toNat < S.length) (v : ℚ),
      getPercentile S p = .ok v ∧
      ((S[⌊((S.length : ℚ) - 1) * p⌋.toNat] ≤ v ∧ v ≤ S[⌈((S.length : ℚ) - 1) * p⌉.toNat]) ∨
        (S[⌈((S.length : ℚ) - 1) * p⌉.toNat] ≤ v ∧
          v ≤ S[⌊((S.length : ℚ) - 1) * p⌋.toNat])) ∧
      (S.Sorted (· ≤ ·) → S.head hne ≤ v ∧ v ≤ S.getLast hne) := by
  obtain ⟨hlo, hhi, hval⟩ := getPercentile_eq S p hne hp0 hp1
  have hr0 : 0 ≤ ((S.length : ℚ) - 1) * p - ⌊((S.length : ℚ) - 1) * p⌋ :=
    sub_nonneg.mpr (Int.floor_le _)
  have hr1 : ((S.length : ℚ) - 1) * p - ⌊((S.length : ℚ) - 1) * p⌋ ≤ 1 := by
    have := Int.lt_floor_add_one (((S.length : ℚ) - 1) * p)
    linarith
  have hbetween := weighted_between S[⌊((S.length : ℚ) - 1) * p⌋.toNat]
    S[⌈((S.length : ℚ) - 1) * p⌉.toNat] _ hr0 hr1
  refine ⟨hlo, hhi, _, hval, hbetween, ?_⟩
  intro hs
  have a1 := sorted_head_le_getElem S hs hne _ hlo
  have a2 := sorted_head_le_getElem S hs hne _ hhi
  have b1 := sorted_getElem_le_getLast S hs hne _ hlo
  have b2 := sorted_getElem_le_getLast S hs hne _ hhi
  rcases hbetween with ⟨h1, h2⟩ | ⟨h1, h2⟩
  · exact ⟨le_trans a1 h1, le_trans h2 b2⟩
  · exact ⟨le_trans a2 h1, le_trans h2 b1⟩

/-- C19: for every non-empty sequence `S` of length `n` and `0 <= p <= 1`, the
indices `lo = floor((n-1)*p)` and `hi = ceil((n-1)*p)` satisfy
`0 <= lo <= hi <= n-1` and `hi - lo <= 1`, both reads are inside `S`, and the
value returned lies between `S[lo]` and `S[hi]`; for `S` sorted ascending it lies
within `[S[0], S[n-1]]`, and every quartile reported by `sortAndCalcStats` lies
within `[min, max]`. -/
theorem getPercentile_reads_in_range (S : List ℚ) (p : ℚ) (hne : S ≠ []) (hp0 : 0 ≤ p)
    (hp1 : p ≤ 1) :
    0 ≤ ⌊((S.length : ℚ) - 1) * p⌋ ∧
    ⌊((S.length : ℚ) - 1) * p⌋ ≤ ⌈((S.length : ℚ) - 1) * p⌉ ∧
    ⌈((S.length : ℚ) - 1) * p⌉ ≤ (S.length : Int) - 1 ∧
    ⌈((S.length : ℚ) - 1) * p⌉ - ⌊((S.length : ℚ) - 1) * p⌋ ≤ 1 ∧
    (∃ (hlo : ⌊((S.length : ℚ) - 1) * p⌋.toNat < S.length)
      (hhi : ⌈((S.length : ℚ) - 1) * p⌉.toNat < S.length) (v : ℚ),
      getPercentile S p = .ok v ∧
      ((S[⌊((S.length : ℚ) - 1) * p⌋.toNat] ≤ v ∧ v ≤ S[⌈((S.length : ℚ) - 1) * p⌉.toNat]) ∨
        (S[⌈((S.length : ℚ) - 1) * p⌉.toNat] ≤ v ∧
          v ≤ S[⌊((S.length : ℚ) - 1) * p⌋.toNat])) ∧
      (S.Sorted (· ≤ ·) → S.head hne ≤ v ∧ v ≤ S.getLast hne)) ∧
    (∃ (S2 : List ℚ) (st : stats), sortAndCalcStats S = .ok (S2, st) ∧
      st.min ≤ st.first_q ∧ st.first_q ≤ st.max ∧
      st.min ≤ st.median ∧ st.median ≤ st.max ∧
      st.min ≤ st.third_q ∧ st.third_q ≤ st.max) := by
  have hn : 0 < S.length := List.length_pos.mpr hne
  obtain ⟨h0, hlo, hhi⟩ := getPercentile_index_bounds S.length p hn hp0 hp1
  have hfc : ⌊((S.length : ℚ) - 1) * p⌋ ≤ ⌈((S.length : ℚ) - 1) * p⌉ := Int.floor_le_ceil _
  have hc1 : ⌈((S.length : ℚ) - 1) * p⌉ ≤ ⌊((S.length : ℚ) - 1) * p⌋ + 1 :=
    Int.ceil_le_floor_add_one _
  refine ⟨h0, hfc, by omega, by omega, getPercentile_between S p hne hp0 hp1, ?_⟩
  have hne2 : sort S ≠ [] := sort_ne_nil S hne
  obtain ⟨_, _, med, hmed, _, hmedb⟩ :=
    getPercentile_between (sort S) (1/2) hne2 (by norm_num) (by norm_num)
  obtain ⟨_, _, fq, hfq, _, hfqb⟩ :=
    getPercentile_between (sort S) (1/4) hne2 (by norm_num) (by norm_num)
  obtain ⟨_, _, tq, htq, _, htqb⟩ :=
    getPercentile_between (sort S) (3/4) hne2 (by norm_num) (by norm_num)
  refine ⟨_, _, sortAndCalcStats_eq S hne med fq tq hmed hfq htq, ?_⟩
  exact ⟨(hfqb (sort_sorted S)).1, (hfqb (sort_sorted S)).2, (hmedb (sort_sorted S)).1,
    (hmedb (sort_sorted S)).2, (htqb (sort_sorted S)).1, (htqb (sort_sorted S)).2⟩

/-- An instance of C19 on `[0, 1]` at `p = 1/4`: the indices are `0` and `1` and
the value `3/4` lies between the two elements. -/
theorem getPercentile_reads_in_range_witness :
    ([0, 1] : List ℚ) ≠ [] ∧ (0 : ℚ) ≤ 1/4 ∧ (1/4 : ℚ) ≤ 1 ∧
    getPercentile [0, 1] (1/4) = .ok (3/4) ∧
    ⌈((([0, 1] : List ℚ).length : ℚ) - 1) * (1/4)⌉ -
      ⌊((([0, 1] : List ℚ).length : ℚ) - 1) * (1/4)⌋ ≤ 1 ∧
    ∃ (S2 : List ℚ) (st : stats), sortAndCalcStats [0, 1] = .ok (S2, st) ∧
      st.min ≤ st.first_q ∧ st.first_q ≤ st.max ∧
      st.min ≤ st.median ∧ st.median ≤ st.max ∧
      st.min ≤ st.third_q ∧ st.third_q ≤ st.max := by
  have h := getPercentile_reads_in_range [0, 1] (1/4) (by simp) (by norm_num) (by norm_num)
  refine ⟨by simp, by norm_num, by norm_num, ?_, h.2.2.2.1, h.2.2.2.2.2⟩
  rw [getPercentile_pair 0 1 (1/4) (by norm_num) (by norm_num)]
  norm_num

end bounds_claims

/-! ## Chained configuration of `performance_mod_cppnmod` -/

section chained_claims

variable {α : Type} [LinearOrder α]

theorem performance_mod_cppnmod_tie_lt (self : performance_mod_cppnmod)
    (i1 i2 : Fit α) (hv : i1.value = i2.value) (hm : i1.mod = i2.mod)
    (hc : i1.cppn_mod < i2.cppn_mod) :
    self.call i1 i2 = self.base._smaller ∧ self.call i2 i1 = self.base._greater := by
  have hc2 : ¬ i2.cppn_mod < i1.cppn_mod := lt_asymm hc
  constructor
  · simp [performance_mod_cppnmod.call, hv, hm, hc]
  · simp [performance_mod_cppnmod.call, hv, hm, hc, hc2]

theorem performance_mod_tie (self : performance_mod) (i1 i2 : Fit α)
    (hv : i1.value = i2.value) (hm : i1.mod = i2.mod) :
    self.call i1 i2 = self.base._equal := by
  simp [performance_mod.call, hv, hm]

/-- The comparator `performance_mod` orders by value and then by mod, and by
nothing else: its result is the outcome of the polarity for the lexicographic
order of the pairs `(value, mod)`. -/
theorem performance_mod_value_then_mod (self : performance_mod) (j1 j2 : Fit α) :
    PolarityOutcome self.base (toLex (j1.value, j1.mod)) (toLex (j2.value, j2.mod))
      (self.call j1 j2) := by
  unfold PolarityOutcome performance_mod.call
  simp only [Prod.Lex.lt_iff, EmbeddingLike.apply_eq_iff_eq, Prod.mk.injEq]
  rcases lt_trichotomy j1.value j2.value with h | h | h
  · simp [h, lt_asymm h, ne_of_lt h, ne_of_gt h]
  · rcases lt_trichotomy j1.mod j2.mod with hm | hm | hm
    · simp [h, hm, lt_asymm hm, ne_of_lt hm, ne_of_gt hm]
    · simp [h, hm]
    · simp [h, hm, lt_asymm hm, ne_of_lt hm, ne_of_gt hm]
  · simp [h, lt_asymm h, ne_of_lt h, ne_of_gt h]

theorem performance_mod_ascending_iff (self : performance_mod)
    (hflags : self.base = ⟨true, false, false⟩) (j1 j2 : Fit α) :
    self.call j1 j2 = true ↔ toLex (j1.value, j1.mod) < toLex (j2.value, j2.mod) := by
  obtain ⟨h1, h2, h3⟩ := performance_mod_value_then_mod self j1 j2
  rw [hflags] at h1 h2 h3
  rcases lt_trichotomy (toLex (j1.value, j1.mod)) (toLex (j2.value, j2.mod)) with hk | hk | hk
  · simp [h1 hk, hk]
  · simp [h3 hk, hk]
  · simp [h2 hk, lt_asymm hk]

theorem performance_mod_descending_iff (self : performance_mod)
    (hflags : self.base = ⟨false, true, false⟩) (j1 j2 : Fit α) :
    self.call j1 j2 = true ↔ toLex (j2.value, j2.mod) < toLex (j1.value, j1.mod) := by
  obtain ⟨h1, h2, h3⟩ := performance_mod_value_then_mod self j1 j2
  rw [hflags] at h1 h2 h3
  rcases lt_trichotomy (toLex (j1.value, j1.mod)) (toLex (j2.value, j2.mod)) with hk | hk | hk
  · simp [h1 hk, lt_asymm hk]
  · simp [h3 hk, hk]
  · simp [h2 hk, hk]

/-- C20: `ascending()` and `descending()` called on a `performance_mod_cppnmod`
return a `performance_mod` reference carrying the flags the call has just set,
and that comparator compares on value and then mod only: on every pair of
candidates it is `true` exactly when the pair `(value, mod)` is lexicographically
smaller (ascending) or greater (descending), whatever the `cppn_mod` values. So
for two candidates that tie on value and on mod but differ on `cppn_mod` it
returns the equal outcome `false` in both argument orders, whereas
`performance_mod_cppnmod::operator()` applied to the object itself returns the
smaller or greater outcome for them. -/
theorem performance_mod_cppnmod_chained_call (self : performance_mod_cppnmod)
    (i1 i2 : Fit α) (hv : i1.value = i2.value) (hm : i1.mod = i2.mod)
    (hc : i1.cppn_mod ≠ i2.cppn_mod) :
    self.ascending_returned.call i1 i2 = false ∧
    self.ascending_returned.call i2 i1 = false ∧
    self.descending_returned.call i1 i2 = false ∧
    self.descending_returned.call i2 i1 = false ∧
    self.ascending_returned.base._equal = false ∧
    self.descending_returned.base._equal = false ∧
    ((i1.cppn_mod < i2.cppn_mod ∧ self.call i1 i2 = self.base._smaller ∧
        self.call i2 i1 = self.base._greater ∧
        self.ascending.call i1 i2 = true ∧ self.ascending.call i2 i1 = false ∧
        self.descending.call i1 i2 = false ∧ self.descending.call i2 i1 = true) ∨
     (i2.cppn_mod < i1.cppn_mod ∧ self.call i1 i2 = self.base._greater ∧
        self.call i2 i1 = self.base._smaller ∧
        self.ascending.call i1 i2 = false ∧ self.ascending.call i2 i1 = true ∧
        self.descending.call i1 i2 = true ∧ self.descending.call i2 i1 = false)) ∧
    self.ascending_returned.base = self.ascending.base ∧
    self.descending_returned.base = self.descending.base ∧
    self.ascending_returned = performance_mod.mk ⟨true, false, false⟩ ∧
    self.descending_returned = performance_mod.mk ⟨false, true, false⟩ ∧
    (∀ j1 j2 : Fit α,
      PolarityOutcome self.ascending.base (toLex (j1.value, j1.mod))
        (toLex (j2.value, j2.mod)) (self.ascending_returned.call j1 j2)) ∧
    (∀ j1 j2 : Fit α,
      PolarityOutcome self.descending.base (toLex (j1.value, j1.mod))
        (toLex (j2.value, j2.mod)) (self.descending_returned.call j1 j2)) ∧
    (∀ j1 j2 : Fit α, (self.ascending_returned.call j1 j2 = true ↔
      toLex (j1.value, j1.mod) < toLex (j2.value, j2.mod))) ∧
    (∀ j1 j2 : Fit α, (self.descending_returned.call j1 j2 = true ↔
      toLex (j2.value, j2.mod) < toLex (j1.value, j1.mod))) ∧
    (∀ j1 j2 k1 k2 : Fit α, j1.value = k1.value → j1.mod = k1.mod →
      j2.value = k2.value → j2.mod = k2.mod →
      self.ascending_returned.call j1 j2 = self.ascending_returned.call k1 k2 ∧
      self.descending_returned.call j1 j2 = self.descending_returned.call k1 k2) := by
  have hasc : ∀ j1 j2 : Fit α, (self.ascending_returned.call j1 j2 = true ↔
      toLex (j1.value, j1.mod) < toLex (j2.value, j2.mod)) :=
    performance_mod_ascending_iff self.ascending_returned rfl
  have hdesc : ∀ j1 j2 : Fit α, (self.descending_returned.call j1 j2 = true ↔
      toLex (j2.value, j2.mod) < toLex (j1.value, j1.mod)) :=
    performance_mod_descending_iff self.descending_returned rfl
  refine ⟨performance_mod_tie _ i1 i2 hv hm, performance_mod_tie _ i2 i1 hv.symm hm.symm,
    performance_mod_tie _ i1 i2 hv hm, performance_mod_tie _ i2 i1 hv.symm hm.symm,
    rfl, rfl, ?_, rfl, rfl, rfl, rfl,
    fun j1 j2 => performance_mod_value_then_mod self.ascending_returned j1 j2,
    fun j1 j2 => performance_mod_value_then_mod self.descending_returned j1 j2,
    hasc, hdesc, ?_⟩
  · rcases lt_or_gt_of_ne hc with h | h
    · left
      exact ⟨h, (performance_mod_cppnmod_tie_lt self i1 i2 hv hm h).1,
        (performance_mod_cppnmod_tie_lt self i1 i2 hv hm h).2,
        (performance_mod_cppnmod_tie_lt self.ascending i1 i2 hv hm h).1,
        (performance_mod_cppnmod_tie_lt self.ascending i1 i2 hv hm h).2,
        (performance_mod_cppnmod_tie_lt self.descending i1 i2 hv hm h).1,
        (performance_mod_cppnmod_tie_lt self.descending i1 i2 hv hm h).2⟩
    · right
      exact ⟨h, (performance_mod_cppnmod_tie_lt self i2 i1 hv.symm hm.symm h).2,
        (performance_mod_cppnmod_tie_lt self i2 i1 hv.symm hm.symm h).1,
        (performance_mod_cppnmod_tie_lt self.ascending i2 i1 hv.symm hm.symm h).2,
        (performance_mod_cppnmod_tie_lt self.ascending i2 i1 hv.symm hm.symm h).1,
        (performance_mod_cppnmod_tie_lt self.descending i2 i1 hv.symm hm.symm h).2,
        (performance_mod_cppnmod_tie_lt self.descending i2 i1 hv.symm hm.symm h).1⟩
  · intro j1 j2 k1 k2 h1 h2 h3 h4
    constructor
    · rw [Bool.eq_iff_iff, hasc j1 j2, hasc k1 k2, h1, h2, h3, h4]
    · rw [Bool.eq_iff_iff, hdesc j1 j2, hdesc k1 k2, h1, h2, h3, h4]

/-- An instance of C20: two candidates with value 1, mod 2 and `cppn_mod` 3 and
4; the reference returned by `descending()` gives `false` both ways, the
descending object itself gives `false` and `true`. On candidates that differ on
value or on mod the returned reference does order them: descending, value 5
comes before value 1 and, at equal value, mod 7 before mod 2, with the larger
`cppn_mod` on the other side. -/
theorem performance_mod_cppnmod_chained_call_witness :
    (Fit.mk (1 : Int) [] 2 3).value = (Fit.mk (1 : Int) [] 2 4).value ∧
    (Fit.mk (1 : Int) [] 2 3).mod = (Fit.mk (1 : Int) [] 2 4).mod ∧
    (Fit.mk (1 : Int) [] 2 3).cppn_mod ≠ (Fit.mk (1 : Int) [] 2 4).cppn_mod ∧
    performance_mod_cppnmod.new.descending_returned.call
      (Fit.mk (1 : Int) [] 2 3) (Fit.mk 1 [] 2 4) = false ∧
    performance_mod_cppnmod.new.descending_returned.call
      (Fit.mk (1 : Int) [] 2 4) (Fit.mk 1 [] 2 3) = false ∧
    performance_mod_cppnmod.new.descending.call
      (Fit.mk (1 : Int) [] 2 3) (Fit.mk 1 [] 2 4) = false ∧
    performance_mod_cppnmod.new.descending.call
      (Fit.mk (1 : Int) [] 2 4) (Fit.mk 1 [] 2 3) = true ∧
    performance_mod_cppnmod.new.descending_returned.call
      (Fit.mk (5 : Int) [] 2 0) (Fit.mk 1 [] 2 9) = true ∧
    performance_mod_cppnmod.new.descending_returned.call
      (Fit.mk (1 : Int) [] 7 0) (Fit.mk 1 [] 2 9) = true ∧
    performance_mod_cppnmod.new.descending_returned.call
      (Fit.mk (1 : Int) [] 2 9) (Fit.mk 5 [] 2 0) = false ∧
    performance_mod_cppnmod.new.ascending_returned.call
      (Fit.mk (1 : Int) [] 2 9) (Fit.mk 5 [] 2 0) = true ∧
    performance_mod_cppnmod.new.descending_returned = performance_mod.mk ⟨false, true, false⟩ :=
  ⟨by decide, by decide, by decide,
    (performance_mod_cppnmod_chained_call performance_mod_cppnmod.new
      (Fit.mk (1 : Int) [] 2 3) (Fit.mk 1 [] 2 4) rfl rfl (by decide)).2.2.1,
    (performance_mod_cppnmod_chained_call performance_mod_cppnmod.new
      (Fit.mk (1 : Int) [] 2 3) (Fit.mk 1 [] 2 4) rfl rfl (by decide)).2.2.2.1,
    by decide, by decide,
    ((performance_mod_cppnmod_chained_call performance_mod_cppnmod.new
      (Fit.mk (1 : Int) [] 2 3) (Fit.mk 1 [] 2 4) rfl rfl
      (by decide)).2.2.2.2.2.2.2.2.2.2.2.2.2.2.1
      (Fit.mk (5 : Int) [] 2 0) (Fit.mk 1 [] 2 9)).mpr
      ((Prod.Lex.lt_iff _ _).mpr (Or.inl (by decide))),
    ((performance_mod_cppnmod_chained_call performance_mod_cppnmod.new
      (Fit.mk (1 : Int) [] 2 3) (Fit.mk 1 [] 2 4) rfl rfl
      (by decide)).2.2.2.2.2.2.2.2.2.2.2.2.2.2.1
      (Fit.mk (1 : Int) [] 7 0) (Fit.mk 1 [] 2 9)).mpr
      ((Prod.Lex.lt_iff _ _).mpr (Or.inr ⟨rfl, by decide⟩)),
    by decide,
    ((performance_mod_cppnmod_chained_call performance_mod_cppnmod.new
      (Fit.mk (1 : Int) [] 2 3) (Fit.mk 1 [] 2 4) rfl rfl
      (by decide)).2.2.2.2.2.2.2.2.2.2.2.2.2.1
      (Fit.mk (1 : Int) [] 2 9) (Fit.mk 5 [] 2 0)).mpr
      ((Prod.Lex.lt_iff _ _).mpr (Or.inl (by decide))),
    (performance_mod_cppnmod_chained_call performance_mod_cppnmod.new
      (Fit.mk (1 : Int) [] 2 3) (Fit.mk 1 [] 2 4) rfl rfl
      (by decide)).2.2.2.2.2.2.2.2.2.2.1⟩

end chained_claims

end compare
end sferes
